import Mathlib

/-!
Verification of the shard-scheduling layer of `open_lm/file_utils.py`
(repository `averaging-iterates`): manifest loading, the per-checkpoint
shard allocator `_single_epoch_string`, the worker/GPU batch projection
and checkpoint-count simulation of `log_num_checkpoints`.

Modelling conventions:
* A parsed manifest record (one JSON line) is a `ManifestRecord`: the
  `shard` name plus the two optional count fields `num_sequences` /
  `num_chunks`, exactly as `json.loads` exposes them.
* Python floats (the `weights`) are modelled as exact rationals `ℚ`.
* Machine integers are `Nat` / `Int` (Python ints are unbounded anyway).
* Exceptions are modelled with `Except AllocError`: the `assert` on the
  weight vector is `configError`, `IndexError` caught at lines 461-469 of
  the source is `insufficientShards`, an uncaught `KeyError` from a record
  missing both count fields is `keyError`, `max` or `min` of an empty
  sequence is `valueError`, and division by zero (zero sources at line 431,
  a zero-sum weight vector at line 435, a zero worker count at line 478) is
  `zeroDivisionError`.  The allocator's unbounded `while` loop is run on
  explicit fuel (`fuelOut` marks exhaustion); the fuel passed by the
  top-level entry point is proved sufficient (`allocLoop_no_fuelOut`).
-/

/-- One parsed line of a manifest file: `{"shard": ..., "num_sequences": ...}`
or `{"shard": ..., "num_chunks": ...}` (either count field may be absent). -/
structure ManifestRecord where
  shard : String
  num_sequences : Option Nat
  num_chunks : Option Nat
deriving Repr, DecidableEq

/-- The count lookup of `_single_epoch_string` lines 451-454:
`try: m["num_sequences"] except KeyError: m["num_chunks"]`.
`none` means both fields are missing (an uncaught `KeyError` in Python). -/
def recordCount (r : ManifestRecord) : Option Nat :=
  match r.num_sequences with
  | some n => some n
  | none => r.num_chunks

/-- A record is well formed when at least one count field is present. -/
def recordWF (r : ManifestRecord) : Prop := recordCount r ≠ none

instance (r : ManifestRecord) : Decidable (recordWF r) := by
  unfold recordWF; infer_instance

/-- A manifest is well formed when all of its records are. -/
def manifestWF (m : List ManifestRecord) : Prop := ∀ r ∈ m, recordWF r

instance (m : List ManifestRecord) : Decidable (manifestWF m) := by
  unfold manifestWF; infer_instance

/-- Python's `text.split("\n")` (single-character separator, keeping empty
segments), used by `get_metadata_file` line 136, on the character list of
the file content. -/
def splitNl : List Char → List (List Char)
  | [] => [[]]
  | c :: rest =>
    if c = '\n' then [] :: splitNl rest
    else
      match splitNl rest with
      | [] => [[c]]
      | s :: ss => (c :: s) :: ss

/-- `get_metadata_file` line 136: split the decoded file content on newlines
and drop the final segment (`split("\n")[:-1]`); each kept segment is then
fed to `json.loads`. -/
def metadataSegments (content : List Char) : List (List Char) :=
  (splitNl content).dropLast

/-- `enough_shards` (source lines 186-190): every source's running shard list
has at least `min_shards_needed` entries. -/
def enough_shards (shard_lists : List (List String)) (min_shards_needed : Nat) : Bool :=
  shard_lists.all fun sl => !(sl.length < min_shards_needed : Bool)

/-- `enough_samples` (source lines 193-197): every source's accumulated
sample count reaches its needed sample count. -/
def enough_samples (num_samples_per_source : List (List Nat)) (needed : List Int) : Bool :=
  (num_samples_per_source.zip needed).all fun p => !(((p.1.sum : Int) < p.2) : Bool)

/-- The per-source sample quota of `_single_epoch_string` line 435:
`int(np.ceil(weights[i] * num_samples / sum(weights)))`.  This is the pure
value of the comprehension; the `ZeroDivisionError` of a zero-sum weight
vector is surfaced by `mkNeeded`, which calls this only with a nonzero sum
(or an empty range). -/
def needed_samples_per_source (weights : List ℚ) (num_samples : Nat) : List Int :=
  weights.map fun w => ⌈w * (num_samples : ℚ) / weights.sum⌉

/-- The failure modes of the allocator and simulator (section 7 of the spec
maps the `assert` to `ConfigError` and the caught `IndexError` to
`InsufficientShardsError`). -/
inductive AllocError where
  | configError
  | insufficientShards
  | keyError
  | valueError
  | zeroDivisionError
  | fuelOut
deriving Repr, DecidableEq

/-- The shard-size list built by `count_small_shards` (lines 213-219) and by
`are_sources_imbalanced_with_each_other` (lines 229-235): one count per
record, resolved with the `num_sequences`/`num_chunks` fallback; a record
with neither field raises an uncaught `KeyError` at the first such record. -/
def shard_sizes_of : List ManifestRecord → Except AllocError (List Nat)
  | [] => .ok []
  | r :: rest =>
    match recordCount r with
    | none => .error .keyError
    | some c =>
      match shard_sizes_of rest with
      | .error e => .error e
      | .ok cs => .ok (c :: cs)

/-- The raising behavior of `count_small_shards` (lines 208-223): a
`KeyError` from the size loop, or Python's `ValueError` from
`max(shard_sizes)` when the manifest is empty.  (The small-shard count
itself only feeds a log warning and is not needed.) -/
def count_small_shards_check (m : List ManifestRecord) : Except AllocError Unit :=
  match shard_sizes_of m with
  | .error e => .error e
  | .ok sizes => if sizes = [] then .error .valueError else .ok ()

/-- The raising behavior of the per-source size loop of
`are_sources_imbalanced_with_each_other` (lines 228-237): only the
`KeyError` of the fallback can escape (`np.median` of an empty list yields
`nan`, not an exception, and the `max`/`min` at line 239 run over one entry
per source, a nonempty list whenever this is called). -/
def sources_sizes : List (List ManifestRecord) → Except AllocError Unit
  | [] => .ok ()
  | m :: rest =>
    match shard_sizes_of m with
    | .error e => .error e
    | .ok _ => sources_sizes rest

/-- Line 414: the imbalance diagnostic runs only with more than one
source. -/
def imbalance_check (manifests : List (List ManifestRecord)) : Except AllocError Unit :=
  if 1 < manifests.length then sources_sizes manifests else .ok ()

/-- Raising behavior of the advisory-warning prologue of
`_single_epoch_string` (lines 406-428), in program order: the imbalance
diagnostic (under `num_sources > 1`), then `count_small_shards` for each
source in order. -/
def small_shards_checks : List (List ManifestRecord) → Except AllocError Unit
  | [] => .ok ()
  | m :: rest =>
    match count_small_shards_check m with
    | .error e => .error e
    | .ok _ => small_shards_checks rest

/-- The whole prologue of lines 406-428. -/
def preChecks (manifests : List (List ManifestRecord)) : Except AllocError Unit :=
  match imbalance_check manifests with
  | .error e => .error e
  | .ok _ => small_shards_checks manifests

/-- The quota comprehension of line 435 as an effectful stage: with at
least one source it divides by `sum(weights)`, so a zero-sum weight vector
raises Python's `ZeroDivisionError`; with zero sources the comprehension is
empty and nothing is evaluated. -/
def mkNeeded (ws : List ℚ) (num_sources : Nat) (num_samples : Nat) :
    Except AllocError (List Int) :=
  if num_sources ≠ 0 ∧ ws.sum = 0 then .error .zeroDivisionError
  else .ok (needed_samples_per_source ws num_samples)

/-- Weight defaulting (lines 430-431, where `1.0 / num_sources` raises
`ZeroDivisionError` for zero sources), the length `assert` (line 433,
trivially true for the defaulted vector) and the quota computation
(line 435).  This is the only part of the allocator that touches rational
arithmetic. -/
def neededOf (weights : Option (List ℚ)) (num_sources : Nat) (num_samples : Nat) :
    Except AllocError (List Int) :=
  match weights with
  | none =>
    if num_sources = 0 then .error .zeroDivisionError
    else
      mkNeeded (List.replicate num_sources ((1 : ℚ) / (num_sources : ℚ)))
        num_sources num_samples
  | some ws =>
    if ws.length = num_sources then mkNeeded ws num_sources num_samples
    else .error .configError

/-- The local state of `_single_epoch_string`'s accumulation loop.
`starting` holds the caller's `starting_shard_per_source` argument; `next` is
the working copy made by `copy.deepcopy` at line 439 (only `next` is ever
written by the loop). -/
structure AllocState where
  starting : List Nat
  next : List Nat
  shardLists : List (List String)
  sampleLists : List (List Nat)
deriving Repr, DecidableEq

/-- Initial loop state (lines 439-441): `next` is a (deep) copy of the
caller's cursors, the running shard and sample lists start empty. -/
def allocInit (starting : List Nat) (num_sources : Nat) : AllocState :=
  { starting := starting
    next := starting
    shardLists := List.replicate num_sources []
    sampleLists := List.replicate num_sources []
  }

/-- The body of the inner `for i in range(num_sources)` at lines 448-459 for
one source `i`: read `manifests[i][next[i]]` (an out-of-range access is the
`IndexError` that line 461 converts into the insufficient-shards failure),
resolve the count with the `num_sequences`/`num_chunks` fallback, append the
shard name and count, and advance `next[i]`. -/
def allocStep (manifests : List (List ManifestRecord)) (i : Nat) (s : AllocState) :
    Except AllocError AllocState :=
  match s.next.get? i with
  | none => .error .insufficientShards
  | some cursor =>
    match (manifests.getD i []).get? cursor with
    | none => .error .insufficientShards
    | some r =>
      match recordCount r with
      | none => .error .keyError
      | some cnt =>
        .ok { s with
              shardLists := s.shardLists.set i (s.shardLists.getD i [] ++ [r.shard])
              sampleLists := s.sampleLists.set i (s.sampleLists.getD i [] ++ [cnt])
              next := s.next.set i (cursor + 1) }

/-- One pass of the inner `for` loop over a list of source indices. -/
def allocRoundAux (manifests : List (List ManifestRecord)) :
    List Nat → AllocState → Except AllocError AllocState
  | [], s => .ok s
  | i :: rest, s =>
    match allocStep manifests i s with
    | .error e => .error e
    | .ok s' => allocRoundAux manifests rest s'

/-- One round of the `while` loop (lines 447-459): append the next
unconsumed shard of every source, in source order. -/
def allocRound (manifests : List (List ManifestRecord)) (num_sources : Nat)
    (s : AllocState) : Except AllocError AllocState :=
  allocRoundAux manifests (List.range num_sources) s

/-- The stop condition of the `while` at lines 444-446:
`enough_shards … AND enough_samples …`. -/
def allocStop (total_num_workers : Nat) (needed : List Int) (s : AllocState) : Bool :=
  enough_shards s.shardLists total_num_workers && enough_samples s.sampleLists needed

/-- The `while not enough_shards(...) or not enough_samples(...)` loop of
lines 444-459, with explicit fuel standing in for its (source-bounded)
unboundedness. -/
def allocLoop (manifests : List (List ManifestRecord)) (num_sources total_num_workers : Nat)
    (needed : List Int) : Nat → AllocState → Except AllocError AllocState
  | 0, s => if allocStop total_num_workers needed s then .ok s else .error .fuelOut
  | fuel' + 1, s =>
    if allocStop total_num_workers needed s then .ok s
    else
      match allocRound manifests num_sources s with
      | .error e => .error e
      | .ok s' => allocLoop manifests num_sources total_num_workers needed fuel' s'

/-- The allocation result: the committed (truncated) per-source shard lists,
the truncated per-shard sample lists, the per-source sample totals of line
486, and the committed cursors.  (The source additionally renders each shard
list into a brace-expanded path string at lines 488-498; the string rendering
carries no extra information and is not modelled.) -/
structure AllocResult where
  shard_list_per_source : List (List String)
  sample_lists : List (List Nat)
  num_samples_per_source : List Nat
  next_shard_per_source : List Nat
deriving Repr, DecidableEq

/-- The truncate-and-commit stage, lines 471-484: per source, keep the first
`(len // total_num_workers) * total_num_workers` accumulated shards (and the
matching sample counts), and commit `next[i] = starting[i] + committed
length` — the cursor update that puts truncated shards back.  The
`ZeroDivisionError` that line 478 raises when `total_num_workers = 0` (and
at least one source exists) is surfaced by the guard in
`single_epoch_string`; this function itself is only ever reached with that
case excluded. -/
def allocFinalize (total_num_workers : Nat) (s : AllocState) : AllocResult :=
  let committedShards := s.shardLists.map fun l =>
    l.take (l.length / total_num_workers * total_num_workers)
  let committedSamples := (s.sampleLists.zip s.shardLists).map fun p =>
    p.1.take (p.2.length / total_num_workers * total_num_workers)
  { shard_list_per_source := committedShards
    sample_lists := committedSamples
    num_samples_per_source := committedSamples.map (·.sum)
    next_shard_per_source :=
      (s.starting.zip committedShards).map fun p => p.1 + p.2.length
  }

/-- Fuel that always suffices for `allocLoop` (proved in
`allocLoop_no_fuelOut`): one more than the length of the first source's
manifest, since every successful round advances every cursor by one and a
round past the end of manifest 0 raises the insufficient-shards error. -/
def allocFuel (manifests : List (List ManifestRecord)) : Nat :=
  (manifests.headD []).length + 1

/-- `_single_epoch_string` (source lines 385-500), taking the already-loaded
manifests in place of the manifest paths: run the advisory-warning prologue
of lines 406-428 (whose diagnostics can raise `KeyError` on a count-less
record and `ValueError` on an empty manifest, before anything else), default
the weights, check the weight-vector length, compute the per-source quotas,
run the accumulation loop from a copy of the caller's cursors, then truncate
and commit.  The truncation loop at lines 471-484 divides by
`total_num_workers` once per source, so with at least one source and a zero
worker count it raises `ZeroDivisionError` instead of returning. -/
def single_epoch_string (num_samples : Nat) (starting_shard_per_source : List Nat)
    (manifests : List (List ManifestRecord)) (weights : Option (List ℚ))
    (num_workers_per_gpu : Nat) (world_size : Nat) : Except AllocError AllocResult :=
  match preChecks manifests with
  | .error e => .error e
  | .ok _ =>
    match neededOf weights manifests.length num_samples with
    | .error e => .error e
    | .ok needed =>
      match allocLoop manifests manifests.length (num_workers_per_gpu * world_size) needed
          (allocFuel manifests) (allocInit starting_shard_per_source manifests.length) with
      | .error e => .error e
      | .ok s =>
        if manifests.length ≠ 0 ∧ num_workers_per_gpu * world_size = 0 then
          .error .zeroDivisionError
        else .ok (allocFinalize (num_workers_per_gpu * world_size) s)

/-- `get_string_for_epoch` (lines 325-338) with the default
`multi_epoch=False` simply forwards to `_single_epoch_string`. -/
def get_string_for_epoch (num_samples : Nat) (starting_points : List Nat)
    (manifests : List (List ManifestRecord)) (weights : Option (List ℚ))
    (num_workers_per_gpu : Nat) (world_size : Nat) : Except AllocError AllocResult :=
  single_epoch_string num_samples starting_points manifests weights
    num_workers_per_gpu world_size

/-- `convert_metadata_to_dict` (lines 140-147): build a shard-name → count
dictionary, resolving the count with the same `num_sequences`/`num_chunks`
fallback; a record missing both fields raises an uncaught `KeyError`.
The Python `dict` is modelled as an association list in which a repeated
key overwrites in place (last write wins on lookup). -/
def dictSet (d : List (String × Nat)) (k : String) (v : Nat) : List (String × Nat) :=
  if d.any (fun p => p.1 = k) then d.map (fun p => if p.1 = k then (k, v) else p)
  else d ++ [(k, v)]

/-- Dictionary lookup; `none` is Python's `KeyError`. -/
def dictGet (d : List (String × Nat)) (k : String) : Option Nat :=
  (d.find? (fun p => p.1 = k)).map (·.2)

/-- `convert_metadata_to_dict` itself. -/
def convert_metadata_to_dict (manifest : List ManifestRecord) :
    Except AllocError (List (String × Nat)) :=
  manifest.foldl
    (fun acc r =>
      match acc with
      | .error e => .error e
      | .ok d =>
        match recordCount r with
        | none => .error .keyError
        | some c => .ok (dictSet d r.shard c))
    (.ok [])

/-- The per-source scatter of `log_num_checkpoints` lines 281-283: shard `i`
(in allocation order) contributes its sample count to global worker
`i % num_global_workers`. -/
def num_samples_per_global_worker (num_global_workers : Nat) (counts : List Nat) :
    List Nat :=
  counts.enum.foldl
    (fun acc p => acc.set (p.1 % num_global_workers)
      (acc.getD (p.1 % num_global_workers) 0 + p.2))
    (List.replicate num_global_workers 0)

/-- Lines 286-287: per source, each worker produces
`assigned_samples // global_batch_size` batches, and the per-source arrays
are summed elementwise (the numpy `sum` over a list of arrays). -/
def num_batches_per_global_worker (num_global_workers global_batch_size : Nat)
    (samples_per_worker_per_source : List (List Nat)) : List Nat :=
  (samples_per_worker_per_source.map (fun ws => ws.map (· / global_batch_size))).foldl
    (fun acc l => acc.zipWith (· + ·) l)
    (List.replicate num_global_workers 0)

/-- Lines 292-295: global worker `w` belongs to GPU `w % world_size`; each
GPU's batch count is the sum over its workers. -/
def num_batches_per_gpu (world_size num_global_workers : Nat)
    (batches_per_worker : List Nat) : List Nat :=
  (List.range num_global_workers).foldl
    (fun acc w => acc.set (w % world_size)
      (acc.getD (w % world_size) 0 + batches_per_worker.getD w 0))
    (List.replicate world_size 0)

/-- The whole worker/GPU projection of `log_num_checkpoints` lines 276-295,
from the per-source per-shard sample counts of the current allocation to the
per-GPU batch counts. -/
def projectGpuBatches (world_size workers global_batch_size : Nat)
    (counts_per_source : List (List Nat)) : List Nat :=
  num_batches_per_gpu world_size (world_size * workers)
    (num_batches_per_global_worker (world_size * workers) global_batch_size
      (counts_per_source.map (num_samples_per_global_worker (world_size * workers))))

/-- Modelled from the spec's words (§4.4 as read by claim C4), for comparison
with `projectGpuBatches`: accumulate every assigned shard's samples onto its
worker (a single accumulator per worker across all sources), then take one
floor per worker. -/
def claimGpuBatchesSpec (world_size workers global_batch_size : Nat)
    (counts_per_source : List (List Nat)) : List Nat :=
  num_batches_per_gpu world_size (world_size * workers)
    ((((counts_per_source.map (num_samples_per_global_worker (world_size * workers))).foldl
        (fun acc l => acc.zipWith (· + ·) l)
        (List.replicate (world_size * workers) 0)).map
      (· / global_batch_size)))

/-- The mutable state of `log_num_checkpoints`'s `while` loop
(lines 251-258). -/
structure SimState where
  steps_done : Nat
  tokens_seen : Nat
  checkpoints_made : Nat
  next_shard_per_source : List Nat
deriving Repr, DecidableEq

/-- The configuration consumed by `log_num_checkpoints` (the fields of
`args` it reads). -/
structure SimArgs where
  train_num_samples : Nat
  dataset_manifest : List (List ManifestRecord)
  train_data_mix_weights : Option (List ℚ)
  workers : Nat
  world_size : Nat
  global_batch_size : Nat
  seq_len : Nat
  epochs : Nat
deriving Repr

/-- Sample counts of the allocated shards of one source, recovered as in
`log_num_checkpoints` lines 273-274 by looking the shard ids up in the
manifest dictionary (the brace-expansion/`Path.with_suffix` round-trip of
line 273, which reproduces the allocated shard ids, is modelled as the
identity on ids). -/
def shardCountsFromDict (d : List (String × Nat)) (ids : List String) :
    Except AllocError (List Nat) :=
  ids.foldr
    (fun id acc =>
      match dictGet d id with
      | none => .error .keyError
      | some c =>
        match acc with
        | .error e => .error e
        | .ok l => .ok (c :: l))
    (.ok [])

/-- The continuation of one iteration of the `while steps_done <
total_steps` loop of `log_num_checkpoints` (lines 273-304) after the
allocation call: recover the per-shard counts through the manifest
dictionaries, project onto GPUs, advance by the minimum per-GPU batch count
(`min` of an empty list is Python's `ValueError`), clamp to `total_steps`,
recompute `tokens_seen`, and count the checkpoint. -/
def simStepRest (args : SimArgs) (dicts : List (List (String × Nat))) (total_steps : Nat)
    (st : SimState) : Except AllocError AllocResult → Except AllocError SimState
  | .error e => .error e
  | .ok res =>
    match (res.shard_list_per_source.zip dicts).mapM
        (fun p => shardCountsFromDict p.2 p.1) with
    | .error e => .error e
    | .ok counts_per_source =>
      match (num_batches_per_gpu args.world_size (args.world_size * args.workers)
          (num_batches_per_global_worker (args.world_size * args.workers)
            args.global_batch_size
            (counts_per_source.map
              (num_samples_per_global_worker (args.world_size * args.workers))))).min? with
      | none => .error .valueError
      | some steps_epoch =>
        let steps := st.steps_done + steps_epoch
        let steps' := if total_steps < steps then total_steps else steps
        .ok { steps_done := steps'
              tokens_seen := steps' * args.global_batch_size * args.seq_len
              checkpoints_made := st.checkpoints_made + 1
              next_shard_per_source := res.next_shard_per_source }

/-- One full iteration of the `while` loop of `log_num_checkpoints`
(lines 263-304): the allocation call of lines 264-271 followed by the
projection-and-update continuation. -/
def simStep (args : SimArgs) (dicts : List (List (String × Nat))) (total_steps : Nat)
    (st : SimState) : Except AllocError SimState :=
  simStepRest args dicts total_steps st
    (get_string_for_epoch args.train_num_samples st.next_shard_per_source
      args.dataset_manifest args.train_data_mix_weights args.workers args.world_size)

/-- The fueled `while` loop of `log_num_checkpoints`. -/
def simLoop (args : SimArgs) (dicts : List (List (String × Nat))) (total_steps : Nat) :
    Nat → SimState → Except AllocError SimState
  | 0, st => if st.steps_done < total_steps then .error .fuelOut else .ok st
  | fuel' + 1, st =>
    if st.steps_done < total_steps then
      match simStep args dicts total_steps st with
      | .error e => .error e
      | .ok st' => simLoop args dicts total_steps fuel' st'
    else .ok st

/-- `log_num_checkpoints` (lines 242-322): convert the manifests to
dictionaries once, run the simulation loop from zeroed counters and cursors,
and report the final state together with the warning flag of line 315
(`checkpoints_made != args.epochs`). -/
def log_num_checkpoints (total_steps : Nat) (args : SimArgs) (fuel : Nat) :
    Except AllocError (SimState × Bool) :=
  match args.dataset_manifest.mapM convert_metadata_to_dict with
  | .error e => .error e
  | .ok dicts =>
    match simLoop args dicts total_steps fuel
        { steps_done := 0, tokens_seen := 0, checkpoints_made := 0
          next_shard_per_source :=
            List.replicate args.dataset_manifest.length 0 } with
    | .error e => .error e
    | .ok st => .ok (st, st.checkpoints_made ≠ args.epochs)

/-- Erase the `num_chunks` field of a record (used to state claim C7: if
loading normalized counts into a canonical field and nothing downstream fell
back to `num_chunks`, erasing `num_chunks` after load could not change any
downstream result). -/
def eraseChunks (r : ManifestRecord) : ManifestRecord :=
  { r with num_chunks := none }

/-- Move a record's count into the `num_sequences` field (the canonical-form
normalization the spec attributes to the manifest store). -/
def normalizeRecord (r : ManifestRecord) : ManifestRecord :=
  { r with num_sequences := recordCount r, num_chunks := none }

/-- Formalization of claim C7 over the embedding: manifest loading hands the
parsed records to the allocator unchanged, so the claim that counts are
normalized into one canonical field at load time — with no
`num_sequences`/`num_chunks` fallback downstream — says exactly that the
`num_chunks` field is dead code downstream of loading. -/
def no_downstream_fallback : Prop :=
  ∀ (num_samples : Nat) (starting : List Nat) (manifests : List (List ManifestRecord))
    (workers world_size : Nat),
    single_epoch_string num_samples starting (manifests.map (List.map eraseChunks))
        none workers world_size
      = single_epoch_string num_samples starting manifests none workers world_size

/-- Pure round iteration: run exactly `R` rounds of the accumulation loop
(no stop-condition checks).  Used to characterize what `allocLoop` does. -/
def iterRounds (manifests : List (List ManifestRecord)) (num_sources : Nat) :
    Nat → AllocState → Except AllocError AllocState
  | 0, s => .ok s
  | R + 1, s =>
    match allocRound manifests num_sources s with
    | .error e => .error e
    | .ok s' => iterRounds manifests num_sources R s'

/-- Structural invariant of the loop state: one cursor, one shard list and
one sample list per source. -/
def stateWF (num_sources : Nat) (s : AllocState) : Prop :=
  s.next.length = num_sources ∧ s.shardLists.length = num_sources ∧
    s.sampleLists.length = num_sources

/-- Total samples assigned to global worker `w` from one source's allocated
shard counts under the `i mod num_global_workers` assignment (the
mathematical reading of the scatter loop at lines 281-283). -/
def assignedSamples (num_global_workers : Nat) (counts : List Nat) (w : Nat) : Nat :=
  ((counts.enum.filter fun p => p.1 % num_global_workers = w).map Prod.snd).sum

deriving instance DecidableEq for Except

/-- Propagate an error, otherwise continue — Python's implicit exception
propagation at a call site. -/
def exceptStep {ε α β : Type} (f : α → Except ε β) : Except ε α → Except ε β
  | .error e => .error e
  | .ok a => f a

/-- A manifest file body whose records (lines) each end with a newline:
the canonical well-formed file layout. -/
def joinNl (lines : List (List Char)) : List Char :=
  lines.foldr (fun l acc => l ++ '\n' :: acc) []

/-- `getD` after `set` at the written index. -/
theorem getD_set_self {α : Type} (l : List α) (k : Nat) (v d : α) (h : k < l.length) :
    (l.set k v).getD k d = v := by
  simp [List.getD_eq_getElem?_getD, List.getElem?_set, h]

/-- `getD` after `set` at another index. -/
theorem getD_set_ne {α : Type} (l : List α) (k j : Nat) (v d : α) (h : k ≠ j) :
    (l.set k v).getD j d = l.getD j d := by
  simp [List.getD_eq_getElem?_getD, List.getElem?_set, h]

/-- Eliminate a successful `allocStep`: recover the cursor, the record read,
its count, and the exact shape of the new state. -/
theorem allocStep_ok_elim {m : List (List ManifestRecord)} {i : Nat} {s s' : AllocState}
    (h : allocStep m i s = .ok s') :
    ∃ cursor r cnt,
      s.next.get? i = some cursor ∧ (m.getD i []).get? cursor = some r ∧
      recordCount r = some cnt ∧
      s' = { s with
             shardLists := s.shardLists.set i (s.shardLists.getD i [] ++ [r.shard])
             sampleLists := s.sampleLists.set i (s.sampleLists.getD i [] ++ [cnt])
             next := s.next.set i (cursor + 1) } := by
  unfold allocStep at h
  split at h
  · exact absurd h (by simp)
  rename_i cursor hc
  split at h
  · exact absurd h (by simp)
  rename_i r hr
  split at h
  · exact absurd h (by simp)
  rename_i cnt hcnt
  exact ⟨cursor, r, cnt, hc, hr, hcnt, by cases h; rfl⟩

/-- A successful step never writes the `starting` field (the caller's cursor
argument, severed from `next` by the deep copy at line 439). -/
theorem allocStep_starting {m : List (List ManifestRecord)} {i : Nat} {s s' : AllocState}
    (h : allocStep m i s = .ok s') : s'.starting = s.starting := by
  obtain ⟨c, r, cnt, -, -, -, rfl⟩ := allocStep_ok_elim h
  rfl

/-- A successful step preserves the lengths of all three per-source lists. -/
theorem allocStep_lengths {m : List (List ManifestRecord)} {i : Nat} {s s' : AllocState}
    (h : allocStep m i s = .ok s') :
    s'.next.length = s.next.length ∧ s'.shardLists.length = s.shardLists.length ∧
      s'.sampleLists.length = s.sampleLists.length := by
  obtain ⟨c, r, cnt, -, -, -, rfl⟩ := allocStep_ok_elim h
  simp

/-- A step on source `i` does not touch any other source `j`. -/
theorem allocStep_preserve {m : List (List ManifestRecord)} {i : Nat} {s s' : AllocState}
    (h : allocStep m i s = .ok s') {j : Nat} (hij : i ≠ j) :
    s'.next.get? j = s.next.get? j ∧ s'.shardLists.get? j = s.shardLists.get? j ∧
      s'.sampleLists.get? j = s.sampleLists.get? j := by
  obtain ⟨c, r, cnt, -, -, -, rfl⟩ := allocStep_ok_elim h
  simp [List.get?_eq_getElem?, List.getElem?_set, hij]

/-- What a successful step does to source `i` itself. -/
theorem allocStep_at_i {m : List (List ManifestRecord)} {i : Nat} {s s' : AllocState}
    (h : allocStep m i s = .ok s')
    (h1 : i < s.shardLists.length) (h2 : i < s.sampleLists.length) :
    ∃ cursor r cnt,
      s.next.get? i = some cursor ∧ (m.getD i []).get? cursor = some r ∧
      recordCount r = some cnt ∧
      s'.next.get? i = some (cursor + 1) ∧
      s'.shardLists.get? i = some (s.shardLists.getD i [] ++ [r.shard]) ∧
      s'.sampleLists.get? i = some (s.sampleLists.getD i [] ++ [cnt]) := by
  obtain ⟨c, r, cnt, hc, hr, hcnt, rfl⟩ := allocStep_ok_elim h
  have hlen : i < s.next.length := by
    rcases List.get?_eq_some.mp hc with ⟨hl, -⟩
    exact hl
  refine ⟨c, r, cnt, hc, hr, hcnt, ?_, ?_, ?_⟩ <;>
    simp [List.get?_eq_getElem?, List.getElem?_set, hlen, h1, h2]

/-- A failing step fails with the insufficient-shards error or, only when the
record it read has neither count field, the key error. -/
theorem allocStep_error {m : List (List ManifestRecord)} {i : Nat} {s : AllocState}
    {e : AllocError} (h : allocStep m i s = .error e) :
    e = .insufficientShards ∨
      (e = .keyError ∧ ∃ cursor r, (m.getD i []).get? cursor = some r ∧ recordCount r = none) := by
  unfold allocStep at h
  split at h
  · exact Or.inl (by cases h; rfl)
  rename_i cursor hc
  split at h
  · exact Or.inl (by cases h; rfl)
  rename_i r hr
  split at h
  · rename_i hcnt
    exact Or.inr ⟨by cases h; rfl, cursor, r, hr, hcnt⟩
  · exact absurd h (by simp)

/-- A successful pass over any index list never writes `starting`. -/
theorem allocRoundAux_starting {m : List (List ManifestRecord)} :
    ∀ {is : List Nat} {s s' : AllocState}, allocRoundAux m is s = .ok s' →
      s'.starting = s.starting := by
  intro is
  induction is with
  | nil => intro s s' h; cases h; rfl
  | cons i rest ih =>
    intro s s' h
    unfold allocRoundAux at h
    split at h
    · exact absurd h (by simp)
    rename_i t hstep
    exact (ih h).trans (allocStep_starting hstep)

/-- A successful pass preserves the lengths of the three per-source lists. -/
theorem allocRoundAux_lengths {m : List (List ManifestRecord)} :
    ∀ {is : List Nat} {s s' : AllocState}, allocRoundAux m is s = .ok s' →
      s'.next.length = s.next.length ∧ s'.shardLists.length = s.shardLists.length ∧
        s'.sampleLists.length = s.sampleLists.length := by
  intro is
  induction is with
  | nil => intro s s' h; cases h; exact ⟨rfl, rfl, rfl⟩
  | cons i rest ih =>
    intro s s' h
    unfold allocRoundAux at h
    split at h
    · exact absurd h (by simp)
    rename_i t hstep
    obtain ⟨a, b, c⟩ := ih h
    obtain ⟨a', b', c'⟩ := allocStep_lengths hstep
    exact ⟨a.trans a', b.trans b', c.trans c'⟩

/-- A successful pass does not touch sources whose index is not in the list. -/
theorem allocRoundAux_not_mem {m : List (List ManifestRecord)} :
    ∀ {is : List Nat} {s s' : AllocState}, allocRoundAux m is s = .ok s' →
      ∀ {j : Nat}, j ∉ is →
        s'.next.get? j = s.next.get? j ∧ s'.shardLists.get? j = s.shardLists.get? j ∧
          s'.sampleLists.get? j = s.sampleLists.get? j := by
  intro is
  induction is with
  | nil => intro s s' h j _; cases h; exact ⟨rfl, rfl, rfl⟩
  | cons i rest ih =>
    intro s s' h j hj
    unfold allocRoundAux at h
    split at h
    · exact absurd h (by simp)
    rename_i t hstep
    have hji : i ≠ j := fun e => hj (e ▸ List.mem_cons_self i rest)
    have hjr : j ∉ rest := fun e => hj (List.mem_cons_of_mem i e)
    obtain ⟨a, b, c⟩ := ih h hjr
    obtain ⟨a', b', c'⟩ := allocStep_preserve hstep hji
    exact ⟨a.trans a', b.trans b', c.trans c'⟩

/-- What a successful pass over a duplicate-free index list does to a source
`j` in the list: read the manifest record at `j`'s cursor, append its shard
name and count to `j`'s running lists, advance `j`'s cursor by one. -/
theorem allocRoundAux_mem {m : List (List ManifestRecord)} :
    ∀ {is : List Nat} {s s' : AllocState}, is.Nodup →
      allocRoundAux m is s = .ok s' → ∀ {j : Nat}, j ∈ is →
      j < s.shardLists.length → j < s.sampleLists.length →
      ∃ cursor r cnt,
        s.next.get? j = some cursor ∧ (m.getD j []).get? cursor = some r ∧
        recordCount r = some cnt ∧
        s'.next.get? j = some (cursor + 1) ∧
        s'.shardLists.get? j = some (s.shardLists.getD j [] ++ [r.shard]) ∧
        s'.sampleLists.get? j = some (s.sampleLists.getD j [] ++ [cnt]) := by
  intro is
  induction is with
  | nil => intro s s' _ h j hj; exact absurd hj (List.not_mem_nil j)
  | cons i rest ih =>
    intro s s' hnd h j hj h1 h2
    unfold allocRoundAux at h
    split at h
    · exact absurd h (by simp)
    rename_i t hstep
    rcases List.mem_cons.mp hj with rfl | hjr
    · obtain ⟨cursor, r, cnt, hc, hr, hcnt, hn, hs, hp⟩ := allocStep_at_i hstep h1 h2
      have hnotr : j ∉ rest := (List.nodup_cons.mp hnd).1
      obtain ⟨a, b, c⟩ := allocRoundAux_not_mem h hnotr
      exact ⟨cursor, r, cnt, hc, hr, hcnt, a.trans hn, b.trans hs, c.trans hp⟩
    · have hji : i ≠ j := fun e => (List.nodup_cons.mp hnd).1 (e ▸ hjr)
      obtain ⟨a, b, c⟩ := allocStep_preserve hstep hji
      obtain ⟨l1, l2, l3⟩ := allocStep_lengths hstep
      obtain ⟨cursor, r, cnt, hc, hr, hcnt, hn, hs, hp⟩ :=
        ih (List.nodup_cons.mp hnd).2 h hjr (l2 ▸ h1) (l3 ▸ h2)
      refine ⟨cursor, r, cnt, a ▸ hc, hr, hcnt, hn, ?_, ?_⟩
      · rw [hs, List.getD_eq_getElem?_getD, ← List.get?_eq_getElem?, b,
          List.get?_eq_getElem?, ← List.getD_eq_getElem?_getD]
      · rw [hp, List.getD_eq_getElem?_getD, ← List.get?_eq_getElem?, c,
          List.get?_eq_getElem?, ← List.getD_eq_getElem?_getD]

/-- A failing pass fails with the insufficient-shards error, or with the key
error on a record that has neither count field. -/
theorem allocRoundAux_error {m : List (List ManifestRecord)} :
    ∀ {is : List Nat} {s : AllocState} {e : AllocError},
      allocRoundAux m is s = .error e →
      e = .insufficientShards ∨
        (e = .keyError ∧ ∃ i cursor r, (m.getD i []).get? cursor = some r ∧
          recordCount r = none) := by
  intro is
  induction is with
  | nil => intro s e h; exact absurd h (by simp [allocRoundAux])
  | cons i rest ih =>
    intro s e h
    unfold allocRoundAux at h
    split at h
    · rename_i hstep
      cases h
      rcases allocStep_error hstep with h' | ⟨h', cursor, r, hr, hcnt⟩
      · exact Or.inl h'
      · exact Or.inr ⟨h', i, cursor, r, hr, hcnt⟩
    · exact ih h

/-- Bridge from `get?` facts to `getD` values. -/
theorem getD_of_get? {α : Type} {l : List α} {j : Nat} {c d : α}
    (h : l.get? j = some c) : l.getD j d = c := by
  rw [List.getD_eq_getElem?_getD, ← List.get?_eq_getElem?, h]
  rfl

/-- A successful `allocLoop` run never writes `starting`. -/
theorem allocLoop_starting {m : List (List ManifestRecord)} {n W : Nat} {needed : List Int} :
    ∀ {fuel : Nat} {s s' : AllocState}, allocLoop m n W needed fuel s = .ok s' →
      s'.starting = s.starting := by
  intro fuel
  induction fuel with
  | zero =>
    intro s s' h
    unfold allocLoop at h
    split at h
    · cases h; rfl
    · exact absurd h (by simp)
  | succ f ih =>
    intro s s' h
    unfold allocLoop at h
    split at h
    · cases h; rfl
    split at h
    · exact absurd h (by simp)
    rename_i t hround
    exact (ih h).trans (allocRoundAux_starting hround)

/-- A successful `allocLoop` run preserves the structural invariant. -/
theorem allocLoop_wf {m : List (List ManifestRecord)} {n W : Nat} {needed : List Int} :
    ∀ {fuel : Nat} {s s' : AllocState}, allocLoop m n W needed fuel s = .ok s' →
      stateWF n s → stateWF n s' := by
  intro fuel
  induction fuel with
  | zero =>
    intro s s' h hwf
    unfold allocLoop at h
    split at h
    · cases h; exact hwf
    · exact absurd h (by simp)
  | succ f ih =>
    intro s s' h hwf
    unfold allocLoop at h
    split at h
    · cases h; exact hwf
    split at h
    · exact absurd h (by simp)
    rename_i t hround
    obtain ⟨a, b, c⟩ := allocRoundAux_lengths hround
    exact ih h ⟨a.trans hwf.1, b.trans hwf.2.1, c.trans hwf.2.2⟩

/-- Errors surfaced by `allocLoop` are fuel exhaustion, the
insufficient-shards error, or a key error on a count-less record. -/
theorem allocLoop_error {m : List (List ManifestRecord)} {n W : Nat} {needed : List Int} :
    ∀ {fuel : Nat} {s : AllocState} {e : AllocError},
      allocLoop m n W needed fuel s = .error e →
      e = .fuelOut ∨ e = .insufficientShards ∨
        (e = .keyError ∧ ∃ i cursor r, (m.getD i []).get? cursor = some r ∧
          recordCount r = none) := by
  intro fuel
  induction fuel with
  | zero =>
    intro s e h
    unfold allocLoop at h
    split at h
    · exact absurd h (by simp)
    · cases h; exact Or.inl rfl
  | succ f ih =>
    intro s e h
    unfold allocLoop at h
    split at h
    · exact absurd h (by simp)
    split at h
    · rename_i hround
      cases h
      rcases allocRoundAux_error hround with h' | ⟨h', w⟩
      · exact Or.inr (Or.inl h')
      · exact Or.inr (Or.inr ⟨h', w⟩)
    · exact ih h

/-- With at least one source and fuel exceeding the unread remainder of the
first source's manifest, `allocLoop` never exhausts its fuel: every
successful round advances source 0's cursor, and a round that would read
past the end of manifest 0 errors out instead. -/
theorem allocLoop_no_fuelOut {m : List (List ManifestRecord)} {n W : Nat}
    {needed : List Int} (hn : 1 ≤ n) :
    ∀ {fuel : Nat} {s : AllocState}, stateWF n s →
      (m.getD 0 []).length - s.next.getD 0 0 < fuel →
      allocLoop m n W needed fuel s ≠ .error .fuelOut := by
  intro fuel
  induction fuel with
  | zero => intro s _ hf; exact absurd hf (Nat.not_lt_zero _)
  | succ f ih =>
    intro s hwf hf h
    unfold allocLoop at h
    split at h
    · exact absurd h (by simp)
    split at h
    · rename_i err heq
      cases h
      rcases allocRoundAux_error heq with h' | ⟨h', -⟩ <;> exact absurd h' (by decide)
    rename_i t hround
    have h0 : (0 : Nat) ∈ List.range n := List.mem_range.mpr hn
    obtain ⟨cursor, r, cnt, hc, hr, -, hn', -, -⟩ :=
      allocRoundAux_mem (List.nodup_range n) hround h0
        (hwf.2.1 ▸ hn) (hwf.2.2 ▸ hn)
    have hcur : s.next.getD 0 0 = cursor := getD_of_get? hc
    have hcur' : t.next.getD 0 0 = cursor + 1 := getD_of_get? hn'
    have hlt : cursor < (m.getD 0 []).length := (List.get?_eq_some.mp hr).1
    obtain ⟨a, b, c⟩ := allocRoundAux_lengths hround
    refine ih ⟨a.trans hwf.1, b.trans hwf.2.1, c.trans hwf.2.2⟩ ?_ h
    omega

/-- `getD` through `map` at an in-range index. -/
theorem getD_map {α β : Type} (f : α → β) (l : List α) (i : Nat) (d : β)
    (hi : i < l.length) : (l.map f).getD i d = f l[i] := by
  rw [List.getD_eq_getElem _ _ (by simpa using hi), List.getElem_map]

/-- `getD` through `zip` at an in-range index. -/
theorem getD_zip {α β : Type} (l : List α) (l' : List β) (i : Nat) (d : α × β)
    (hi : i < l.length) (hi' : i < l'.length) : (l.zip l').getD i d = (l[i], l'[i]) := by
  rw [List.getD_eq_getElem _ _ (by simp [List.length_zip]; omega), List.getElem_zip]

/-- The committed shard list of source `i` is the accumulated list truncated
to the largest multiple of `total_num_workers` (lines 478-480). -/
theorem allocFinalize_shard {W : Nat} {s : AllocState} {i : Nat}
    (h1 : i < s.shardLists.length) :
    (allocFinalize W s).shard_list_per_source.getD i [] =
      (s.shardLists[i]).take ((s.shardLists[i]).length / W * W) := by
  unfold allocFinalize
  exact getD_map _ _ _ _ h1

/-- The committed sample list of source `i` (line 481), truncated by the
multiple computed from the shard list. -/
theorem allocFinalize_samples {W : Nat} {s : AllocState} {i : Nat}
    (h1 : i < s.shardLists.length) (h2 : i < s.sampleLists.length) :
    (allocFinalize W s).sample_lists.getD i [] =
      (s.sampleLists[i]).take ((s.shardLists[i]).length / W * W) := by
  unfold allocFinalize
  rw [getD_map _ _ _ _ (by simp [List.length_zip]; omega), List.getElem_zip]

/-- The committed cursor of source `i` (line 484): the starting cursor plus
the truncated shard count. -/
theorem allocFinalize_next {W : Nat} {s : AllocState} {i : Nat}
    (h1 : i < s.shardLists.length) (h3 : i < s.starting.length) :
    (allocFinalize W s).next_shard_per_source.getD i 0 =
      s.starting[i] +
        ((s.shardLists[i]).take ((s.shardLists[i]).length / W * W)).length := by
  unfold allocFinalize
  rw [getD_map _ _ _ _ (by simp [List.length_zip]; omega), List.getElem_zip,
    List.getElem_map]

/-- The per-source sample totals are the sums of the committed sample lists
(line 486). -/
theorem allocFinalize_total {W : Nat} {s : AllocState} {i : Nat}
    (h1 : i < s.shardLists.length) (h2 : i < s.sampleLists.length) :
    (allocFinalize W s).num_samples_per_source.getD i 0 =
      ((s.sampleLists[i]).take ((s.shardLists[i]).length / W * W)).sum := by
  unfold allocFinalize
  rw [getD_map _ _ _ _ (by simp [List.length_zip]; omega), List.getElem_map,
    List.getElem_zip]

/-- Lengths of the result components. -/
theorem allocFinalize_lengths {W : Nat} {s : AllocState} :
    (allocFinalize W s).shard_list_per_source.length = s.shardLists.length ∧
      (allocFinalize W s).next_shard_per_source.length =
        min s.starting.length s.shardLists.length := by
  unfold allocFinalize
  simp [List.length_zip]

/-- Eliminate a normal return of `single_epoch_string` into its stages:
warning-prologue checks, quota computation, accumulation loop, the
worker-count division guard, truncate-and-commit. -/
theorem single_epoch_string_ok_elim {N : Nat} {starting : List Nat}
    {manifests : List (List ManifestRecord)} {weights : Option (List ℚ)}
    {w v : Nat} {res : AllocResult}
    (h : single_epoch_string N starting manifests weights w v = .ok res) :
    preChecks manifests = .ok () ∧
    ∃ needed s, neededOf weights manifests.length N = .ok needed ∧
      allocLoop manifests manifests.length (w * v) needed (allocFuel manifests)
        (allocInit starting manifests.length) = .ok s ∧
      ¬(manifests.length ≠ 0 ∧ w * v = 0) ∧
      res = allocFinalize (w * v) s := by
  unfold single_epoch_string at h
  split at h
  · exact absurd h (by simp)
  rename_i u hpre
  cases u
  split at h
  · exact absurd h (by simp)
  rename_i needed hneed
  split at h
  · exact absurd h (by simp)
  rename_i s hloop
  split at h
  · exact absurd h (by simp)
  rename_i hguard
  exact ⟨hpre, needed, s, hneed, hloop, hguard, by cases h; rfl⟩

/-- Eliminate an error return of `single_epoch_string` into the stage that
raised it. -/
theorem single_epoch_string_error_elim {N : Nat} {starting : List Nat}
    {manifests : List (List ManifestRecord)} {weights : Option (List ℚ)}
    {w v : Nat} {e : AllocError}
    (h : single_epoch_string N starting manifests weights w v = .error e) :
    preChecks manifests = .error e ∨
      neededOf weights manifests.length N = .error e ∨
      (∃ needed, neededOf weights manifests.length N = .ok needed ∧
        allocLoop manifests manifests.length (w * v) needed (allocFuel manifests)
          (allocInit starting manifests.length) = .error e) ∨
      (e = .zeroDivisionError ∧ manifests.length ≠ 0 ∧ w * v = 0) := by
  unfold single_epoch_string at h
  split at h
  · rename_i e' he
    cases h
    exact Or.inl he
  rename_i u hpre
  split at h
  · rename_i e' he
    cases h
    exact Or.inr (Or.inl he)
  rename_i needed hneed
  split at h
  · rename_i e' he
    cases h
    exact Or.inr (Or.inr (Or.inl ⟨needed, hneed, he⟩))
  split at h
  · rename_i hguard
    cases h
    exact Or.inr (Or.inr (Or.inr ⟨rfl, hguard⟩))
  · exact absurd h (by simp)

/-- A supplied weight vector whose length differs from the number of sources
makes the quota stage fail with the configuration error. -/
theorem neededOf_mismatch {ws : List ℚ} {n N : Nat} (h : ws.length ≠ n) :
    neededOf (some ws) n N = .error .configError := by
  simp [neededOf, h]

/-- With one source and no weights, the quota stage succeeds and the single
source's quota is exactly `num_samples`. -/
theorem neededOf_none_one (N : Nat) : neededOf none 1 N = .ok [(N : ℤ)] := by
  unfold neededOf mkNeeded needed_samples_per_source
  norm_num

/-- With at least one source and no weights, the quota stage succeeds with
the uniform quotas: the defaulted weight vector sums to 1, so line 435
cannot divide by zero. -/
theorem neededOf_none_pos {n : Nat} (hn : 1 ≤ n) (N : Nat) :
    neededOf none n N
      = .ok (needed_samples_per_source
          (List.replicate n ((1 : ℚ) / (n : ℚ))) N) := by
  have hc : ((n : ℚ)) ≠ 0 := Nat.cast_ne_zero.mpr (by omega)
  have hsum : (List.replicate n ((1 : ℚ) / (n : ℚ))).sum = 1 := by
    rw [List.sum_replicate, nsmul_eq_mul]
    field_simp
  unfold neededOf mkNeeded
  rw [if_neg (by omega), if_neg fun hz => one_ne_zero (hsum ▸ hz.2)]

/-- On a well-formed manifest the shard-size loop succeeds, with one size
per record. -/
theorem shard_sizes_of_ok :
    ∀ {m : List ManifestRecord}, manifestWF m →
      ∃ sizes, shard_sizes_of m = .ok sizes ∧ sizes.length = m.length := by
  intro m
  induction m with
  | nil => intro _; exact ⟨[], rfl, rfl⟩
  | cons r rest ih =>
    intro h
    have hr : recordCount r ≠ none := h r (List.mem_cons_self r rest)
    obtain ⟨c, hc⟩ := Option.ne_none_iff_exists'.mp hr
    obtain ⟨sizes, hs, hl⟩ := ih (fun x hx => h x (List.mem_cons_of_mem r hx))
    refine ⟨c :: sizes, ?_, by simp [hl]⟩
    unfold shard_sizes_of
    rw [hc, hs]

/-- On a well-formed nonempty manifest, `count_small_shards` neither raises
a key error nor the empty-`max` value error. -/
theorem count_small_shards_check_ok {m : List ManifestRecord}
    (hwf : manifestWF m) (hne : m ≠ []) : count_small_shards_check m = .ok () := by
  obtain ⟨sizes, hs, hl⟩ := shard_sizes_of_ok hwf
  unfold count_small_shards_check
  rw [hs]
  show (if sizes = [] then Except.error AllocError.valueError else Except.ok ())
    = Except.ok ()
  rw [if_neg]
  intro h0
  rw [h0] at hl
  exact hne (List.length_eq_zero.mp hl.symm)

/-- With well-formed manifests the imbalance diagnostic's size loop
succeeds. -/
theorem sources_sizes_ok :
    ∀ {ms : List (List ManifestRecord)}, (∀ mf ∈ ms, manifestWF mf) →
      sources_sizes ms = .ok () := by
  intro ms
  induction ms with
  | nil => intro _; rfl
  | cons m rest ih =>
    intro h
    obtain ⟨sizes, hs, -⟩ := shard_sizes_of_ok (h m (List.mem_cons_self m rest))
    unfold sources_sizes
    rw [hs]
    exact ih (fun x hx => h x (List.mem_cons_of_mem m hx))

/-- With well-formed nonempty manifests every per-source small-shard check
succeeds. -/
theorem small_shards_checks_ok :
    ∀ {ms : List (List ManifestRecord)}, (∀ mf ∈ ms, manifestWF mf) →
      (∀ mf ∈ ms, mf ≠ []) → small_shards_checks ms = .ok () := by
  intro ms
  induction ms with
  | nil => intro _ _; rfl
  | cons m rest ih =>
    intro hwf hne
    unfold small_shards_checks
    rw [count_small_shards_check_ok (hwf m (List.mem_cons_self m rest))
      (hne m (List.mem_cons_self m rest))]
    exact ih (fun x hx => hwf x (List.mem_cons_of_mem m hx))
      (fun x hx => hne x (List.mem_cons_of_mem m hx))

/-- With well-formed nonempty manifests the whole warning prologue of lines
406-428 raises nothing. -/
theorem preChecks_ok {ms : List (List ManifestRecord)}
    (hwf : ∀ mf ∈ ms, manifestWF mf) (hne : ∀ mf ∈ ms, mf ≠ []) :
    preChecks ms = .ok () := by
  unfold preChecks imbalance_check
  by_cases h : 1 < ms.length
  · rw [if_pos h, sources_sizes_ok hwf]
    exact small_shards_checks_ok hwf hne
  · rw [if_neg h]
    exact small_shards_checks_ok hwf hne

/-- The scatter-add fold keeps the accumulator length. -/
theorem scatter_length (n : Nat) :
    ∀ (ps : List (Nat × Nat)) (acc : List Nat),
      (ps.foldl (fun a p => a.set (p.1 % n) (a.getD (p.1 % n) 0 + p.2)) acc).length
        = acc.length := by
  intro ps
  induction ps with
  | nil => intro acc; rfl
  | cons p rest ih => intro acc; rw [List.foldl_cons, ih, List.length_set]

/-- Reading index `j` of a scatter-add fold: the initial value plus the sum
of all scattered values whose key lands on `j` modulo `n`. -/
theorem scatter_getD {n j : Nat} (hj : j < n) :
    ∀ (ps : List (Nat × Nat)) (acc : List Nat), acc.length = n →
      (ps.foldl (fun a p => a.set (p.1 % n) (a.getD (p.1 % n) 0 + p.2)) acc).getD j 0
        = acc.getD j 0 + ((ps.filter fun p => p.1 % n = j).map Prod.snd).sum := by
  intro ps
  induction ps with
  | nil => intro acc _; simp
  | cons p rest ih =>
    intro acc hacc
    have hmod : p.1 % n < acc.length := by
      rw [hacc]
      exact Nat.mod_lt _ (by omega)
    rw [List.foldl_cons, ih _ (by rw [List.length_set]; exact hacc), List.filter_cons]
    by_cases hpj : p.1 % n = j
    · rw [if_pos (by simpa using hpj), hpj, getD_set_self _ _ _ _ (hpj ▸ hmod)]
      simp [Nat.add_assoc]
    · rw [if_neg (by simpa using hpj), getD_set_ne _ _ _ _ _ hpj]

/-- The per-worker sample array of one source has one slot per worker. -/
theorem num_samples_per_global_worker_length (W : Nat) (c : List Nat) :
    (num_samples_per_global_worker W c).length = W := by
  unfold num_samples_per_global_worker
  rw [scatter_length, List.length_replicate]

/-- Slot `w` of the scatter loop holds exactly the samples of the shards
assigned to worker `w` by the `i mod W` rule. -/
theorem num_samples_per_global_worker_getD {W w : Nat} (hw : w < W) (c : List Nat) :
    (num_samples_per_global_worker W c).getD w 0 = assignedSamples W c w := by
  unfold num_samples_per_global_worker assignedSamples
  rw [scatter_getD hw _ _ (List.length_replicate W 0),
    List.getD_eq_getElem _ _ (by simpa using hw), List.getElem_replicate, Nat.zero_add]

/-- The elementwise-sum fold keeps the accumulator length when every summand
has the same length. -/
theorem zipsum_length :
    ∀ (ls : List (List Nat)) (acc : List Nat), (∀ l ∈ ls, l.length = acc.length) →
      (ls.foldl (fun a l => a.zipWith (· + ·) l) acc).length = acc.length := by
  intro ls
  induction ls with
  | nil => intro acc _; rfl
  | cons l rest ih =>
    intro acc h
    rw [List.foldl_cons]
    have hl : (acc.zipWith (· + ·) l).length = acc.length := by
      rw [List.length_zipWith, h l (List.mem_cons_self l rest)]
      exact Nat.min_self _
    rw [ih _ (fun x hx => (h x (List.mem_cons_of_mem l hx)).trans hl.symm), hl]

/-- Reading index `w` of the elementwise-sum fold. -/
theorem zipsum_getD :
    ∀ (ls : List (List Nat)) (acc : List Nat) (w : Nat), w < acc.length →
      (∀ l ∈ ls, l.length = acc.length) →
      (ls.foldl (fun a l => a.zipWith (· + ·) l) acc).getD w 0
        = acc.getD w 0 + (ls.map (fun l => l.getD w 0)).sum := by
  intro ls
  induction ls with
  | nil => intro acc w _ _; simp
  | cons l rest ih =>
    intro acc w hw h
    have hl : (acc.zipWith (· + ·) l).length = acc.length := by
      rw [List.length_zipWith, h l (List.mem_cons_self l rest)]
      exact Nat.min_self _
    rw [List.foldl_cons, ih _ _ (hl ▸ hw)
      (fun x hx => (h x (List.mem_cons_of_mem l hx)).trans hl.symm)]
    have hwl : w < l.length := (h l (List.mem_cons_self l rest)) ▸ hw
    have : (acc.zipWith (· + ·) l).getD w 0 = acc.getD w 0 + l.getD w 0 := by
      rw [List.getD_eq_getElem _ _ (hl ▸ hw), List.getElem_zipWith,
        List.getD_eq_getElem _ _ hw, List.getD_eq_getElem _ _ hwl]
    rw [this, List.map_cons, List.sum_cons, Nat.add_assoc]

/-- GPU `g` receives the summed batches of exactly the global workers `w`
with `w % world_size = g` (lines 292-295). -/
theorem num_batches_per_gpu_getD {world_size g : Nat} (hg : g < world_size)
    (W : Nat) (batches : List Nat) :
    (num_batches_per_gpu world_size W batches).getD g 0
      = (((List.range W).filter fun w => w % world_size = g).map
          (fun w => batches.getD w 0)).sum := by
  unfold num_batches_per_gpu
  have h := List.foldl_map (fun w => (w, batches.getD w 0))
    (fun (a : List Nat) (p : Nat × Nat) =>
      a.set (p.1 % world_size) (a.getD (p.1 % world_size) 0 + p.2))
    (List.range W) (List.replicate world_size 0)
  rw [show (List.foldl
      (fun acc w => acc.set (w % world_size)
        (acc.getD (w % world_size) 0 + batches.getD w 0))
      (List.replicate world_size 0) (List.range W))
    = List.foldl
      (fun (a : List Nat) (p : Nat × Nat) =>
        a.set (p.1 % world_size) (a.getD (p.1 % world_size) 0 + p.2))
      (List.replicate world_size 0)
      ((List.range W).map fun w => (w, batches.getD w 0)) from h.symm]
  rw [scatter_getD hg _ _ (List.length_replicate world_size 0),
    List.getD_eq_getElem _ _ (by simpa using hg), List.getElem_replicate, Nat.zero_add,
    List.filter_map, List.map_map]
  rfl

/-- Worker `w`'s batch count is the sum over sources of that source's
per-worker floor `assigned // global_batch_size` (lines 286-287). -/
theorem num_batches_per_global_worker_getD {W w : Nat} (hw : w < W)
    (B : Nat) (sources : List (List Nat)) (hlen : ∀ l ∈ sources, l.length = W) :
    (num_batches_per_global_worker W B sources).getD w 0
      = (sources.map fun ws => ws.getD w 0 / B).sum := by
  unfold num_batches_per_global_worker
  rw [zipsum_getD _ _ _ (by simpa using hw)
    (by
      intro l hl
      rcases List.mem_map.mp hl with ⟨ws, hws, rfl⟩
      rw [List.length_map, hlen ws hws, List.length_replicate]),
    List.getD_eq_getElem _ _ (by simpa using hw), List.getElem_replicate, Nat.zero_add,
    List.map_map]
  refine congrArg List.sum (List.map_congr_left ?_)
  intro ws hws
  have hwl : w < ws.length := (hlen ws hws) ▸ hw
  simp only [Function.comp_apply]
  rw [getD_map _ _ _ _ hwl, List.getD_eq_getElem _ _ hwl]

/-- Closed form of the full worker/GPU projection: GPU `g` gets, summed over
its global workers `w` (those with `w % world_size = g`) and over the
sources, the floor of the samples assigned to `w` from that source divided
by the global batch size. -/
theorem projectGpuBatches_getD {world_size workers B g : Nat} (hg : g < world_size)
    (counts_per_source : List (List Nat)) :
    (projectGpuBatches world_size workers B counts_per_source).getD g 0
      = (((List.range (world_size * workers)).filter fun w => w % world_size = g).map
          (fun w => (counts_per_source.map fun c =>
            assignedSamples (world_size * workers) c w / B).sum)).sum := by
  unfold projectGpuBatches
  rw [num_batches_per_gpu_getD hg]
  refine congrArg List.sum (List.map_congr_left ?_)
  intro w hw
  have hwW : w < world_size * workers := List.mem_range.mp (List.mem_of_mem_filter hw)
  rw [num_batches_per_global_worker_getD hwW _ _
    (by
      intro l hl
      rcases List.mem_map.mp hl with ⟨c, hc, rfl⟩
      exact num_samples_per_global_worker_length _ _),
    List.map_map]
  refine congrArg List.sum (List.map_congr_left ?_)
  intro c hc
  simp only [Function.comp_apply]
  rw [num_samples_per_global_worker_getD hwW]

/-- Eliminate a successful simulation step into its stages: allocation,
count recovery, the `min` over per-GPU batch counts, and the exact update of
the counters (advance by the minimum, clamp at `total_steps`, recompute
`tokens_seen`, count the checkpoint, adopt the committed cursors). -/
theorem simStep_ok_elim {args : SimArgs} {dicts : List (List (String × Nat))}
    {T : Nat} {st st' : SimState} (h : simStep args dicts T st = .ok st') :
    ∃ res counts steps_epoch,
      get_string_for_epoch args.train_num_samples st.next_shard_per_source
          args.dataset_manifest args.train_data_mix_weights args.workers
          args.world_size = .ok res ∧
      (res.shard_list_per_source.zip dicts).mapM
          (fun p => shardCountsFromDict p.2 p.1) = .ok counts ∧
      (num_batches_per_gpu args.world_size (args.world_size * args.workers)
        (num_batches_per_global_worker (args.world_size * args.workers)
          args.global_batch_size
          (counts.map
            (num_samples_per_global_worker
              (args.world_size * args.workers))))).min? = some steps_epoch ∧
      st' = { steps_done :=
                if T < st.steps_done + steps_epoch then T
                else st.steps_done + steps_epoch
              tokens_seen :=
                (if T < st.steps_done + steps_epoch then T
                 else st.steps_done + steps_epoch) *
                  args.global_batch_size * args.seq_len
              checkpoints_made := st.checkpoints_made + 1
              next_shard_per_source := res.next_shard_per_source } := by
  unfold simStep simStepRest at h
  split at h
  · exact absurd h (by simp)
  rename_i res hres
  split at h
  · exact absurd h (by simp)
  rename_i counts hcounts
  split at h
  · exact absurd h (by simp)
  rename_i steps_epoch hmin
  exact ⟨res, counts, steps_epoch, hres, hcounts, hmin, by cases h; rfl⟩

/-- After any successful step, `steps_done` is clamped to `total_steps` and
`tokens_seen` is `steps_done * global_batch_size * seq_len`; exactly one
checkpoint is counted. -/
theorem simStep_bounds {args : SimArgs} {dicts : List (List (String × Nat))}
    {T : Nat} {st st' : SimState} (h : simStep args dicts T st = .ok st') :
    st'.steps_done ≤ T ∧
      st'.tokens_seen = st'.steps_done * args.global_batch_size * args.seq_len ∧
      st'.checkpoints_made = st.checkpoints_made + 1 := by
  obtain ⟨res, counts, e, -, -, -, rfl⟩ := simStep_ok_elim h
  refine ⟨?_, rfl, rfl⟩
  by_cases hc : T < st.steps_done + e
  · simp [hc]
  · simp only [if_neg hc]
    omega

/-- A normal return of the simulation loop stops with the loop guard false
and a state that is the input state or satisfies the counter invariant. -/
theorem simLoop_post {args : SimArgs} {dicts : List (List (String × Nat))} {T : Nat} :
    ∀ {fuel : Nat} {st st' : SimState}, simLoop args dicts T fuel st = .ok st' →
      ¬ st'.steps_done < T ∧
        (st' = st ∨ (st'.steps_done ≤ T ∧
          st'.tokens_seen = st'.steps_done * args.global_batch_size * args.seq_len)) := by
  intro fuel
  induction fuel with
  | zero =>
    intro st st' h
    unfold simLoop at h
    split at h
    · exact absurd h (by simp)
    · rename_i hguard
      cases h
      exact ⟨hguard, Or.inl rfl⟩
  | succ f ih =>
    intro st st' h
    unfold simLoop at h
    split at h
    · split at h
      · exact absurd h (by simp)
      rename_i t hstep
      obtain ⟨hdone, hP⟩ := ih h
      obtain ⟨b1, b2, -⟩ := simStep_bounds hstep
      refine ⟨hdone, Or.inr ?_⟩
      rcases hP with rfl | hP
      · exact ⟨b1, b2⟩
      · exact hP
    · rename_i hguard
      cases h
      exact ⟨hguard, Or.inl rfl⟩

/-- A normal return of `log_num_checkpoints` ends with
`steps_done = total_steps`, `tokens_seen = total_steps * global_batch_size *
seq_len`, and a warning flag that is set exactly when the checkpoints made
differ from the configured number of epochs. -/
theorem log_num_checkpoints_post {total_steps : Nat} {args : SimArgs} {fuel : Nat}
    {st : SimState} {warn : Bool}
    (h : log_num_checkpoints total_steps args fuel = .ok (st, warn)) :
    st.steps_done = total_steps ∧
      st.tokens_seen = total_steps * args.global_batch_size * args.seq_len ∧
      (warn = true ↔ st.checkpoints_made ≠ args.epochs) := by
  unfold log_num_checkpoints at h
  split at h
  · exact absurd h (by simp)
  rename_i dicts hdicts
  split at h
  · exact absurd h (by simp)
  rename_i st0 hloop
  obtain ⟨hdone, hP⟩ := simLoop_post hloop
  have hsteps : st0.steps_done = total_steps ∧
      st0.tokens_seen = total_steps * args.global_batch_size * args.seq_len := by
    rcases hP with heq | ⟨h1, h2⟩
    · rw [heq] at hdone ⊢
      simp only [not_lt, Nat.le_zero] at hdone
      simp [hdone]
    · have he : st0.steps_done = total_steps := by omega
      exact ⟨he, by rw [h2, he]⟩
  cases h
  exact ⟨hsteps.1, hsteps.2, by simp⟩

/-- Splitting a newline-free text yields a single segment. -/
theorem splitNl_no_nl : ∀ {ys : List Char}, '\n' ∉ ys → splitNl ys = [ys] := by
  intro ys
  induction ys with
  | nil => intro _; rfl
  | cons c rest ih =>
    intro h
    have hc : ¬ c = '\n' := fun e => h (e ▸ List.mem_cons_self c rest)
    have hr : '\n' ∉ rest := fun e => h (List.mem_cons_of_mem c e)
    unfold splitNl
    rw [if_neg hc, ih hr]

/-- Splitting past a newline-free prefix followed by a newline peels the
prefix off as the first segment. -/
theorem splitNl_append_cons_nl :
    ∀ {xs : List Char}, '\n' ∉ xs → ∀ (rest : List Char),
      splitNl (xs ++ '\n' :: rest) = xs :: splitNl rest := by
  intro xs
  induction xs with
  | nil => intro _ rest; simp [splitNl]
  | cons c xs ih =>
    intro h rest
    have hc : ¬ c = '\n' := fun e => h (e ▸ List.mem_cons_self c xs)
    have hx : '\n' ∉ xs := fun e => h (List.mem_cons_of_mem c e)
    rw [List.cons_append]
    simp only [splitNl]
    rw [if_neg hc, ih hx rest]

/-- Splitting a file in which every record line ends with a newline yields
all the lines plus one trailing empty segment. -/
theorem splitNl_joinNl :
    ∀ {lines : List (List Char)}, (∀ l ∈ lines, '\n' ∉ l) →
      splitNl (joinNl lines) = lines ++ [[]] := by
  intro lines
  induction lines with
  | nil => intro _; rfl
  | cons l rest ih =>
    intro h
    have hl : '\n' ∉ l := h l (List.mem_cons_self l rest)
    have hr : ∀ x ∈ rest, '\n' ∉ x := fun x hx => h x (List.mem_cons_of_mem l hx)
    show splitNl (l ++ '\n' :: joinNl rest) = (l :: rest) ++ [[]]
    rw [splitNl_append_cons_nl hl, ih hr]
    rfl

/-- Splitting a file whose final record line is not newline-terminated
yields all the lines, with the final line as the last segment. -/
theorem splitNl_joinNl_noTrail :
    ∀ {lines : List (List Char)}, (∀ l ∈ lines, '\n' ∉ l) →
      ∀ {last : List Char}, '\n' ∉ last →
        splitNl (joinNl lines ++ last) = lines ++ [last] := by
  intro lines
  induction lines with
  | nil => intro _ last hlast; simpa [joinNl] using splitNl_no_nl hlast
  | cons l rest ih =>
    intro h last hlast
    have hl : '\n' ∉ l := h l (List.mem_cons_self l rest)
    have hr : ∀ x ∈ rest, '\n' ∉ x := fun x hx => h x (List.mem_cons_of_mem l hx)
    rw [show joinNl (l :: rest) = l ++ '\n' :: joinNl rest from rfl,
      List.append_assoc, List.cons_append, splitNl_append_cons_nl hl, ih hr hlast]
    rfl

/-- `get?` through `map`. -/
theorem get?_map_eq {α β : Type} (f : α → β) (l : List α) (n : Nat) :
    (l.map f).get? n = (l.get? n).map f := by
  simp [List.get?_eq_getElem?, List.getElem?_map]

/-- Normalizing a record moves its count but does not change it. -/
theorem recordCount_normalize (r : ManifestRecord) :
    recordCount (normalizeRecord r) = recordCount r := by
  cases hs : r.num_sequences <;> cases hk : r.num_chunks <;>
    simp [normalizeRecord, recordCount, hs, hk]

/-- The allocator step reads a record only through its shard name and its
resolved count, so records normalized into the canonical field behave
identically. -/
theorem allocStep_normalize (m : List (List ManifestRecord)) (i : Nat) (s : AllocState) :
    allocStep (m.map (List.map normalizeRecord)) i s = allocStep m i s := by
  unfold allocStep
  cases hc : s.next.get? i with
  | none => rfl
  | some cursor =>
    have hm : (m.map (List.map normalizeRecord)).getD i []
        = (m.getD i []).map normalizeRecord := by
      rcases Nat.lt_or_ge i m.length with h | h
      · rw [getD_map _ _ _ _ h, List.getD_eq_getElem _ _ h]
      · rw [List.getD_eq_getElem?_getD, List.getElem?_eq_none (by simpa using h),
          List.getD_eq_getElem?_getD, List.getElem?_eq_none h]
        rfl
    simp only [hm, get?_map_eq]
    cases hr : (m.getD i []).get? cursor with
    | none => rfl
    | some r =>
      simp only [Option.map_some']
      rw [recordCount_normalize]
      cases recordCount r with
      | none => rfl
      | some cnt => rfl

/-- Lifting the previous fact through one pass of the inner loop. -/
theorem allocRoundAux_normalize (m : List (List ManifestRecord)) :
    ∀ (is : List Nat) (s : AllocState),
      allocRoundAux (m.map (List.map normalizeRecord)) is s = allocRoundAux m is s := by
  intro is
  induction is with
  | nil => intro s; rfl
  | cons i rest ih =>
    intro s
    unfold allocRoundAux
    rw [allocStep_normalize]
    cases allocStep m i s with
    | error e => rfl
    | ok t => exact ih t

/-- Lifting through the accumulation loop. -/
theorem allocLoop_normalize (m : List (List ManifestRecord)) (n W : Nat)
    (needed : List Int) :
    ∀ (fuel : Nat) (s : AllocState),
      allocLoop (m.map (List.map normalizeRecord)) n W needed fuel s
        = allocLoop m n W needed fuel s := by
  intro fuel
  induction fuel with
  | zero => intro s; rfl
  | succ f ih =>
    intro s
    unfold allocLoop
    by_cases hstop : allocStop W needed s
    · rw [if_pos hstop, if_pos hstop]
    · rw [if_neg hstop, if_neg hstop,
        show allocRound (m.map (List.map normalizeRecord)) n s = allocRound m n s from
          allocRoundAux_normalize m (List.range n) s]
      cases allocRound m n s with
      | error e => rfl
      | ok t => exact ih t

/-- The shard-size loops of the warning prologue read records only through
the fallback-resolved count. -/
theorem shard_sizes_of_normalize :
    ∀ (m : List ManifestRecord),
      shard_sizes_of (m.map normalizeRecord) = shard_sizes_of m := by
  intro m
  induction m with
  | nil => rfl
  | cons r rest ih =>
    show shard_sizes_of (normalizeRecord r :: rest.map normalizeRecord)
      = shard_sizes_of (r :: rest)
    unfold shard_sizes_of
    rw [recordCount_normalize, ih]

/-- `count_small_shards` behaves identically on normalized records. -/
theorem count_small_shards_check_normalize (m : List ManifestRecord) :
    count_small_shards_check (m.map normalizeRecord) = count_small_shards_check m := by
  unfold count_small_shards_check
  rw [shard_sizes_of_normalize]

/-- The imbalance diagnostic's size loop behaves identically on normalized
records. -/
theorem sources_sizes_normalize :
    ∀ (ms : List (List ManifestRecord)),
      sources_sizes (ms.map (List.map normalizeRecord)) = sources_sizes ms := by
  intro ms
  induction ms with
  | nil => rfl
  | cons m rest ih =>
    show sources_sizes (m.map normalizeRecord :: rest.map (List.map normalizeRecord))
      = sources_sizes (m :: rest)
    unfold sources_sizes
    rw [shard_sizes_of_normalize, ih]

/-- The per-source small-shard checks behave identically on normalized
records. -/
theorem small_shards_checks_normalize :
    ∀ (ms : List (List ManifestRecord)),
      small_shards_checks (ms.map (List.map normalizeRecord))
        = small_shards_checks ms := by
  intro ms
  induction ms with
  | nil => rfl
  | cons m rest ih =>
    show small_shards_checks
        (m.map normalizeRecord :: rest.map (List.map normalizeRecord))
      = small_shards_checks (m :: rest)
    unfold small_shards_checks
    rw [count_small_shards_check_normalize, ih]

/-- The whole warning prologue behaves identically on normalized records. -/
theorem preChecks_normalize (ms : List (List ManifestRecord)) :
    preChecks (ms.map (List.map normalizeRecord)) = preChecks ms := by
  unfold preChecks imbalance_check
  rw [List.length_map, sources_sizes_normalize, small_shards_checks_normalize]

/-- The allocator is invariant under normalizing every manifest record's
count into the canonical `num_sequences` field: its behavior depends on a
record only through the shard name and the fallback-resolved count. -/
theorem single_epoch_string_normalize (N : Nat) (starting : List Nat)
    (m : List (List ManifestRecord)) (w v : Nat) :
    single_epoch_string N starting (m.map (List.map normalizeRecord)) none w v
      = single_epoch_string N starting m none w v := by
  unfold single_epoch_string
  have hfuel : allocFuel (m.map (List.map normalizeRecord)) = allocFuel m := by
    unfold allocFuel
    cases m with
    | nil => rfl
    | cons l rest => simp
  rw [preChecks_normalize, List.length_map, hfuel]
  cases preChecks m with
  | error e => rfl
  | ok u =>
    cases neededOf none m.length N with
    | error e => rfl
    | ok needed =>
      exact congrArg
        (fun x => match x with
          | Except.error e => Except.error e
          | Except.ok s =>
            if m.length ≠ 0 ∧ w * v = 0 then Except.error AllocError.zeroDivisionError
            else Except.ok (allocFinalize (w * v) s))
        (allocLoop_normalize m m.length (w * v) needed (allocFuel m)
          (allocInit starting m.length))

/-- For a single source with default (uniform) weights, the allocator
reduces to its rational-free core with quota list `[num_samples]`. -/
theorem single_epoch_string_one_source (N : Nat) (starting : List Nat)
    (mf : List ManifestRecord) (w v : Nat) :
    single_epoch_string N starting [mf] none w v
      = match preChecks [mf] with
        | .error e => .error e
        | .ok _ =>
          match allocLoop [mf] 1 (w * v) [(N : Int)] (allocFuel [mf])
              (allocInit starting 1) with
          | .error e => .error e
          | .ok s =>
            if (1 : Nat) ≠ 0 ∧ w * v = 0 then .error .zeroDivisionError
            else .ok (allocFinalize (w * v) s) := by
  unfold single_epoch_string
  rw [show ([mf] : List (List ManifestRecord)).length = 1 from rfl, neededOf_none_one]

/-- Substitute a computed allocation result into one simulation step. -/
theorem simStep_congr {args : SimArgs} {dicts : List (List (String × Nat))} {T : Nat}
    {st : SimState} {X : Except AllocError AllocResult}
    (h : get_string_for_epoch args.train_num_samples st.next_shard_per_source
      args.dataset_manifest args.train_data_mix_weights args.workers args.world_size = X) :
    simStep args dicts T st = simStepRest args dicts T st X := by
  unfold simStep
  rw [h]

/-- Unroll one guarded iteration of the simulation loop. -/
theorem simLoop_succ_step {args : SimArgs} {dicts : List (List (String × Nat))}
    {T fuel : Nat} {st : SimState} {X : Except AllocError SimState}
    (hg : st.steps_done < T) (h : simStep args dicts T st = X) :
    simLoop args dicts T (fuel + 1) st
      = exceptStep (simLoop args dicts T fuel) X := by
  unfold simLoop
  rw [if_pos hg, h]
  cases X <;> rfl

/-- The head of a manifest list is its 0th entry. -/
theorem headD_eq_getD_zero (m : List (List ManifestRecord)) :
    m.headD [] = m.getD 0 [] := by
  cases m <;> rfl

/-- Semantics of `enough_shards`. -/
theorem enough_shards_iff (ls : List (List String)) (W : Nat) :
    enough_shards ls W = true ↔ ∀ sl ∈ ls, W ≤ sl.length := by
  simp [enough_shards]

/-- Semantics of `enough_samples`. -/
theorem enough_samples_iff (nums : List (List Nat)) (needed : List Int) :
    enough_samples nums needed = true ↔
      ∀ p ∈ nums.zip needed, p.2 ≤ (p.1.sum : Int) := by
  simp [enough_samples, Prod.forall]

/-- The initial state is well formed when there is one starting cursor per
source. -/
theorem allocInit_wf {starting : List Nat} {n : Nat} (h : starting.length = n) :
    stateWF n (allocInit starting n) := by
  exact ⟨h, List.length_replicate n [], List.length_replicate n []⟩

/-- C1: for every allocation call of the shard allocator that returns
normally (with one starting cursor per source and a non-degenerate worker
grid, since a zero worker count makes the Python code divide by zero rather
than return) and for every source, the returned cursor equals that source's
starting cursor plus the committed shard-list length, where the committed
list is the accumulated list truncated to a multiple of the worker count —
shards past the truncation point are put back.  In particular, for one
source with 10 shards of 100 samples each, `world_size = 2`,
`workers_per_gpu = 1`, `num_samples = 250`, three shards are accumulated
(`iterRounds … 3` reaches cursor 3), two are committed (200 samples), and
the returned cursor is 2. -/
theorem claim_cursor_commit :
    (∀ (N : Nat) (starting : List Nat) (manifests : List (List ManifestRecord))
        (weights : Option (List ℚ)) (w v : Nat) (res : AllocResult),
      single_epoch_string N starting manifests weights w v = .ok res →
      starting.length = manifests.length →
      ∀ i, i < manifests.length →
        ∃ (s : AllocState) (needed : List Int),
          neededOf weights manifests.length N = .ok needed ∧
          allocLoop manifests manifests.length (w * v) needed (allocFuel manifests)
            (allocInit starting manifests.length) = .ok s ∧
          res.shard_list_per_source.getD i []
            = (s.shardLists.getD i []).take
                ((s.shardLists.getD i []).length / (w * v) * (w * v)) ∧
          res.next_shard_per_source.getD i 0
            = starting.getD i 0 + (res.shard_list_per_source.getD i []).length) ∧
    (single_epoch_string 250 [0] [List.replicate 10 ⟨"s", some 100, none⟩] none 1 2
        = .ok ⟨[["s", "s"]], [[100, 100]], [200], [2]⟩ ∧
      iterRounds [List.replicate 10 ⟨"s", some 100, none⟩] 1 3 (allocInit [0] 1)
        = .ok ⟨[0], [3], [["s", "s", "s"]], [[100, 100, 100]]⟩) := by
  constructor
  · intro N starting manifests weights w v res hok hlen i hi
    obtain ⟨hpre, needed, s, hneed, hloop, hguard, rfl⟩ := single_epoch_string_ok_elim hok
    have hwf := allocLoop_wf hloop (allocInit_wf hlen)
    have hish : i < s.shardLists.length := hwf.2.1 ▸ hi
    have hst : s.starting = starting := allocLoop_starting hloop
    have hist : i < s.starting.length := by rw [hst, hlen]; exact hi
    have hgd : s.shardLists.getD i [] = s.shardLists[i] := List.getD_eq_getElem _ _ hish
    refine ⟨s, needed, hneed, hloop, ?_, ?_⟩
    · rw [allocFinalize_shard hish, hgd]
    · rw [allocFinalize_next hish hist, allocFinalize_shard hish,
        List.getD_eq_getElem starting 0 (hlen ▸ hi)]
      simp only [hst]
  · constructor
    · rw [single_epoch_string_one_source]
      decide
    · decide

/-- C1 witness: the theorem applied to the spec's concrete example. -/
theorem claim_cursor_commit_witness :
    (single_epoch_string 250 [0] [List.replicate 10 ⟨"s", some 100, none⟩] none 1 2
        = .ok ⟨[["s", "s"]], [[100, 100]], [200], [2]⟩) ∧
    (∃ (s : AllocState) (needed : List Int),
      neededOf none ([List.replicate 10 (⟨"s", some 100, none⟩ : ManifestRecord)]).length 250
          = .ok needed ∧
      allocLoop [List.replicate 10 ⟨"s", some 100, none⟩] 1 (1 * 2) needed
          (allocFuel [List.replicate 10 ⟨"s", some 100, none⟩])
          (allocInit [0] 1) = .ok s ∧
      (⟨[["s", "s"]], [[100, 100]], [200], [2]⟩ : AllocResult).shard_list_per_source.getD 0 []
        = (s.shardLists.getD 0 []).take
            ((s.shardLists.getD 0 []).length / (1 * 2) * (1 * 2)) ∧
      (⟨[["s", "s"]], [[100, 100]], [200], [2]⟩ : AllocResult).next_shard_per_source.getD 0 0
        = ([0] : List Nat).getD 0 0 +
            ((⟨[["s", "s"]], [[100, 100]], [200], [2]⟩ :
              AllocResult).shard_list_per_source.getD 0 []).length) := by
  have hok : single_epoch_string 250 [0] [List.replicate 10 ⟨"s", some 100, none⟩] none 1 2
      = .ok ⟨[["s", "s"]], [[100, 100]], [200], [2]⟩ := by
    rw [single_epoch_string_one_source]
    decide
  exact ⟨hok, claim_cursor_commit.1 250 [0] _ none 1 2 _ hok (by decide) 0 (by decide)⟩

/-- C2: for every allocation call that returns normally (one starting cursor
per source) and every source, the committed shard-list length is an exact
multiple of `total_workers = num_workers_per_gpu * world_size`, obtained by
truncating the accumulated list (a `take`, never padding: the committed
length never exceeds the accumulated length, and every multiple of
`total_workers` not exceeding the accumulated length is at most the
committed length), and the committed cursor never falls below the starting
cursor. -/
theorem claim_worker_multiple :
    ∀ (N : Nat) (starting : List Nat) (manifests : List (List ManifestRecord))
      (weights : Option (List ℚ)) (w v : Nat) (res : AllocResult),
      single_epoch_string N starting manifests weights w v = .ok res →
      starting.length = manifests.length →
      ∀ i, i < manifests.length →
        (∃ k, (res.shard_list_per_source.getD i []).length = k * (w * v)) ∧
        (∃ s : AllocState,
          allocLoop manifests manifests.length (w * v)
            ((neededOf weights manifests.length N).toOption.getD [])
            (allocFuel manifests) (allocInit starting manifests.length) = .ok s ∧
          res.shard_list_per_source.getD i []
            = (s.shardLists.getD i []).take
                ((s.shardLists.getD i []).length / (w * v) * (w * v)) ∧
          (res.shard_list_per_source.getD i []).length
            ≤ (s.shardLists.getD i []).length ∧
          (∀ c, (w * v) ∣ c → c ≤ (s.shardLists.getD i []).length →
            c ≤ (res.shard_list_per_source.getD i []).length)) ∧
        starting.getD i 0 ≤ res.next_shard_per_source.getD i 0 := by
  intro N starting manifests weights w v res hok hlen i hi
  obtain ⟨hpre, needed, s, hneed, hloop, hguard, rfl⟩ := single_epoch_string_ok_elim hok
  have hwf := allocLoop_wf hloop (allocInit_wf hlen)
  have hish : i < s.shardLists.length := hwf.2.1 ▸ hi
  have hst : s.starting = starting := allocLoop_starting hloop
  have hist : i < s.starting.length := by rw [hst, hlen]; exact hi
  have hgd : s.shardLists.getD i [] = s.shardLists[i] := List.getD_eq_getElem _ _ hish
  have hcl : ((allocFinalize (w * v) s).shard_list_per_source.getD i []).length
      = s.shardLists[i].length / (w * v) * (w * v) := by
    rw [allocFinalize_shard hish, List.length_take]
    exact Nat.min_eq_left (Nat.div_mul_le_self _ _)
  refine ⟨⟨s.shardLists[i].length / (w * v), hcl⟩, ⟨s, ?_, ?_, ?_, ?_⟩, ?_⟩
  · rw [hneed]
    exact hloop
  · rw [allocFinalize_shard hish, hgd]
  · rw [hcl, hgd]
    exact Nat.div_mul_le_self _ _
  · intro c hdvd hc
    rw [hcl]
    rw [hgd] at hc
    rcases Nat.eq_zero_or_pos (w * v) with hW | hW
    · rcases hW ▸ hdvd with ⟨k, rfl⟩
      simp
    · obtain ⟨k, rfl⟩ := hdvd
      have : k ≤ s.shardLists[i].length / (w * v) :=
        (Nat.le_div_iff_mul_le hW).mpr (Nat.mul_comm (w * v) k ▸ hc)
      calc (w * v) * k = k * (w * v) := Nat.mul_comm _ _
        _ ≤ s.shardLists[i].length / (w * v) * (w * v) :=
            Nat.mul_le_mul_right _ this
  · rw [allocFinalize_next hish hist]
    rw [List.getD_eq_getElem starting 0 (hlen ▸ hi)]
    simp only [hst]
    exact Nat.le_add_right _ _

/-- C2 witness: the theorem applied to the 10-shard example. -/
theorem claim_worker_multiple_witness :
    (single_epoch_string 250 [0] [List.replicate 10 ⟨"s", some 100, none⟩] none 1 2
        = .ok ⟨[["s", "s"]], [[100, 100]], [200], [2]⟩) ∧
    (∃ k, ((⟨[["s", "s"]], [[100, 100]], [200], [2]⟩ :
        AllocResult).shard_list_per_source.getD 0 []).length = k * (1 * 2)) := by
  have hok : single_epoch_string 250 [0] [List.replicate 10 ⟨"s", some 100, none⟩] none 1 2
      = .ok ⟨[["s", "s"]], [[100, 100]], [200], [2]⟩ := by
    rw [single_epoch_string_one_source]
    decide
  exact ⟨hok,
    (claim_worker_multiple 250 [0] _ none 1 2 _ hok (by decide) 0 (by decide)).1⟩

/-- C4 counterexample: the claim reads the projection as accumulating all
assigned sample counts onto each worker and then taking a single floor
`assigned_samples // global_batch_size` per worker (`claimGpuBatchesSpec`).
The code instead floors per source and per worker and sums the per-source
floors (lines 286-287).  With two sources of one 50-sample shard each, one
GPU, one worker and `global_batch_size = 80`, the code predicts 0 batches
while the claim's formula predicts `⌊100 / 80⌋ = 1`. -/
theorem claim_projection_counterexample :
    projectGpuBatches 1 1 80 [[50], [50]] = [0] ∧
    claimGpuBatchesSpec 1 1 80 [[50], [50]] = [1] ∧
    projectGpuBatches 1 1 80 [[50], [50]] ≠ claimGpuBatchesSpec 1 1 80 [[50], [50]] := by
  refine ⟨by decide, by decide, by decide⟩

/-- C4 amended: the projection assigns shard `i` of each source (in
allocation order) to global worker `i mod (world_size * workers)`,
accumulates each source's assigned sample counts per worker, computes per
worker and per source `batches = floor(assigned_samples /
global_batch_size)`, sums these floors over sources, maps worker `w` to GPU
`w mod world_size`, and outputs one batch count per GPU equal to the sum
over that GPU's workers. -/
theorem claim_projection_amended :
    ∀ (world_size workers B : Nat) (counts : List (List Nat)),
      (projectGpuBatches world_size workers B counts).length = world_size ∧
      ∀ g, g < world_size →
        (projectGpuBatches world_size workers B counts).getD g 0
          = (((List.range (world_size * workers)).filter
                fun x => x % world_size = g).map
              (fun x => (counts.map fun c =>
                assignedSamples (world_size * workers) c x / B).sum)).sum := by
  intro world_size workers B counts
  constructor
  · unfold projectGpuBatches num_batches_per_gpu
    have hlen : ∀ (l : List Nat) (acc : List Nat) (b : List Nat),
        (l.foldl (fun a x => a.set (x % world_size)
          (a.getD (x % world_size) 0 + b.getD x 0)) acc).length = acc.length := by
      intro l
      induction l with
      | nil => intro acc b; rfl
      | cons x xs ih => intro acc b; rw [List.foldl_cons, ih, List.length_set]
    rw [hlen, List.length_replicate]
  · intro g hg
    exact projectGpuBatches_getD hg counts

/-- C4 witness: the amended characterization evaluated on the
counterexample's input. -/
theorem claim_projection_amended_witness :
    (0 : Nat) < 1 ∧
    (projectGpuBatches 1 1 80 [[50], [50]]).getD 0 0
      = (((List.range (1 * 1)).filter fun x => x % 1 = 0).map
          (fun x => (([[50], [50]] : List (List Nat)).map fun c =>
            assignedSamples (1 * 1) c x / 80).sum)).sum := by
  exact ⟨by decide, (claim_projection_amended 1 1 80 [[50], [50]]).2 0 (by decide)⟩

/-- C5: with well-formed nonempty manifests (every record has a count
field, every source has at least one shard — excluding the `KeyError` and
`ValueError` that the line 421-428 diagnostics raise on malformed inputs),
at least one source, one starting cursor per source, a weight vector that
is absent or of matching length and nonzero sum (excluding line 435's
`ZeroDivisionError`), and a nonzero worker count (excluding line 478's
`ZeroDivisionError`), any error return of the allocator is the
insufficient-shards error: it arises exactly when some cursor would move
past the end of its manifest before the stop condition holds, and it
propagates to the caller.  The concrete 3-shard example (worker grid 2×2
requires 4 shards): the allocation fails with `insufficientShards`; the
first 3 rounds succeed, consuming all 3 shards (cursor 3), the stop
condition is still false, and the 4th round — the access to the missing 4th
shard — is the failing step, not anything before it. -/
theorem claim_exhaustion_error :
    (∀ (N : Nat) (starting : List Nat) (manifests : List (List ManifestRecord))
        (weights : Option (List ℚ)) (w v : Nat) (e : AllocError),
      (∀ mf ∈ manifests, manifestWF mf) →
      (∀ mf ∈ manifests, mf ≠ []) →
      1 ≤ manifests.length →
      starting.length = manifests.length →
      0 < w * v →
      (weights = none ∨
        ∃ wl, weights = some wl ∧ wl.length = manifests.length ∧ wl.sum ≠ 0) →
      single_epoch_string N starting manifests weights w v = .error e →
      e = .insufficientShards) ∧
    (single_epoch_string 100 [0] [List.replicate 3 ⟨"s", some 100, none⟩] none 2 2
        = .error .insufficientShards ∧
      iterRounds [List.replicate 3 ⟨"s", some 100, none⟩] 1 3 (allocInit [0] 1)
        = .ok ⟨[0], [3], [["s", "s", "s"]], [[100, 100, 100]]⟩ ∧
      allocStop (2 * 2) [(100 : Int)]
          ⟨[0], [3], [["s", "s", "s"]], [[100, 100, 100]]⟩ = false ∧
      allocRound [List.replicate 3 ⟨"s", some 100, none⟩] 1
          ⟨[0], [3], [["s", "s", "s"]], [[100, 100, 100]]⟩
        = .error .insufficientShards) := by
  constructor
  · intro N starting manifests weights w v e hwf hnem hn hlen hWV hws herr
    rcases single_epoch_string_error_elim herr with
      hpre | hne | ⟨needed, hneed, hloop⟩ | ⟨-, -, hW0⟩
    · rw [preChecks_ok hwf hnem] at hpre
      exact absurd hpre (by simp)
    · exfalso
      rcases hws with rfl | ⟨wl, rfl, hwl, hsum⟩
      · rw [neededOf_none_pos hn N] at hne
        exact absurd hne (by simp)
      · rw [show neededOf (some wl) manifests.length N
              = mkNeeded wl manifests.length N from by
            show (if wl.length = manifests.length then mkNeeded wl manifests.length N
              else .error .configError) = mkNeeded wl manifests.length N
            rw [if_pos hwl]] at hne
        unfold mkNeeded at hne
        rw [if_neg fun hz => hsum hz.2] at hne
        exact absurd hne (by simp)
    · rcases allocLoop_error hloop with rfl | h | ⟨rfl, i, cursor, r, hr, hcnt⟩
      · exfalso
        refine allocLoop_no_fuelOut hn (allocInit_wf hlen) ?_ hloop
        have : allocFuel manifests = (manifests.getD 0 []).length + 1 := by
          unfold allocFuel
          rw [headD_eq_getD_zero]
        omega
      · exact h
      · exfalso
        rcases Nat.lt_or_ge i manifests.length with hi | hi
        · have hm : manifests.getD i [] = manifests[i] :=
            List.getD_eq_getElem _ _ hi
          have hrmem : r ∈ manifests[i] := hm ▸ List.get?_mem hr
          exact hwf manifests[i] (List.getElem_mem hi) r hrmem hcnt
        · rw [List.getD_eq_getElem?_getD, List.getElem?_eq_none hi] at hr
          exact absurd hr (by simp)
    · exact absurd hW0 (by omega)
  · refine ⟨?_, by decide, by decide, by decide⟩
    rw [single_epoch_string_one_source]
    decide

/-- C5 witness: the theorem applied to the 3-shard example. -/
theorem claim_exhaustion_error_witness :
    (single_epoch_string 100 [0] [List.replicate 3 ⟨"s", some 100, none⟩] none 2 2
        = .error .insufficientShards) ∧
    (.insufficientShards : AllocError) = .insufficientShards := by
  have herr : single_epoch_string 100 [0] [List.replicate 3 ⟨"s", some 100, none⟩] none 2 2
      = .error .insufficientShards := by
    rw [single_epoch_string_one_source]
    decide
  exact ⟨herr,
    claim_exhaustion_error.1 100 [0] _ none 2 2 _ (by decide) (by decide) (by decide)
      (by decide) (by decide) (Or.inl rfl) herr⟩

/-- C6: every normal return of the checkpoint simulator ends with
`steps_done = total_steps` (each round advances by the minimum per-GPU
batch count and clamps at `total_steps`) and `tokens_seen = total_steps *
global_batch_size * seq_len`, with the warning flag set exactly when the
number of checkpoints made differs from the configured epochs; and each
successful round is precisely: allocate, recover per-shard counts, take the
minimum over the per-GPU batch counts, advance-and-clamp, recompute
`tokens_seen`, and count one checkpoint. -/
theorem claim_simulator_post :
    (∀ (total_steps : Nat) (args : SimArgs) (fuel : Nat) (st : SimState) (warn : Bool),
      log_num_checkpoints total_steps args fuel = .ok (st, warn) →
      st.steps_done = total_steps ∧
        st.tokens_seen = total_steps * args.global_batch_size * args.seq_len ∧
        (warn = true ↔ st.checkpoints_made ≠ args.epochs)) ∧
    (∀ (args : SimArgs) (dicts : List (List (String × Nat))) (T : Nat)
        (st st' : SimState),
      simStep args dicts T st = .ok st' →
      ∃ res counts steps_epoch,
        get_string_for_epoch args.train_num_samples st.next_shard_per_source
            args.dataset_manifest args.train_data_mix_weights args.workers
            args.world_size = .ok res ∧
        (res.shard_list_per_source.zip dicts).mapM
            (fun p => shardCountsFromDict p.2 p.1) = .ok counts ∧
        (num_batches_per_gpu args.world_size (args.world_size * args.workers)
          (num_batches_per_global_worker (args.world_size * args.workers)
            args.global_batch_size
            (counts.map
              (num_samples_per_global_worker
                (args.world_size * args.workers))))).min? = some steps_epoch ∧
        st' = { steps_done :=
                  if T < st.steps_done + steps_epoch then T
                  else st.steps_done + steps_epoch
                tokens_seen :=
                  (if T < st.steps_done + steps_epoch then T
                   else st.steps_done + steps_epoch) *
                    args.global_batch_size * args.seq_len
                checkpoints_made := st.checkpoints_made + 1
                next_shard_per_source := res.next_shard_per_source }) := by
  exact ⟨fun _ _ _ _ _ h => log_num_checkpoints_post h,
    fun _ _ _ _ _ h => simStep_ok_elim h⟩

/-- C6 witness: a concrete run with `total_steps = 1000`,
`global_batch_size = 8`, `seq_len = 1024`, one source whose single shard
holds 8000 samples and one epoch requested: the simulator terminates after
one checkpoint with `steps_done = 1000` and `tokens_seen = 1000 * 8 * 1024 =
8192000`, and does not warn. -/
theorem claim_simulator_post_witness :
    (log_num_checkpoints 1000 ⟨8000, [[⟨"t0", some 8000, none⟩]], none, 1, 1, 8, 1024, 1⟩ 2
        = .ok (⟨1000, 8192000, 1, [1]⟩, false)) ∧
    ((⟨1000, 8192000, 1, [1]⟩ : SimState).steps_done = 1000 ∧
      (⟨1000, 8192000, 1, [1]⟩ : SimState).tokens_seen
        = 1000 * (⟨8000, [[⟨"t0", some 8000, none⟩]], none, 1, 1, 8, 1024, 1⟩ :
            SimArgs).global_batch_size *
          (⟨8000, [[⟨"t0", some 8000, none⟩]], none, 1, 1, 8, 1024, 1⟩ :
            SimArgs).seq_len ∧
      ((false = true) ↔ (⟨1000, 8192000, 1, [1]⟩ : SimState).checkpoints_made
        ≠ (⟨8000, [[⟨"t0", some 8000, none⟩]], none, 1, 1, 8, 1024, 1⟩ :
            SimArgs).epochs)) := by
  have halloc : get_string_for_epoch 8000 [0] [[⟨"t0", some 8000, none⟩]] none 1 1
      = .ok ⟨[["t0"]], [[8000]], [8000], [1]⟩ := by
    unfold get_string_for_epoch
    rw [single_epoch_string_one_source]
    decide
  have hstep : simStep ⟨8000, [[⟨"t0", some 8000, none⟩]], none, 1, 1, 8, 1024, 1⟩
      [[("t0", 8000)]] 1000 ⟨0, 0, 0, [0]⟩ = .ok ⟨1000, 8192000, 1, [1]⟩ := by
    rw [simStep_congr halloc]
    decide
  have hrun : log_num_checkpoints 1000
      ⟨8000, [[⟨"t0", some 8000, none⟩]], none, 1, 1, 8, 1024, 1⟩ 2
      = .ok (⟨1000, 8192000, 1, [1]⟩, false) := by
    unfold log_num_checkpoints
    rw [show ((⟨8000, [[⟨"t0", some 8000, none⟩]], none, 1, 1, 8, 1024, 1⟩ :
        SimArgs).dataset_manifest.mapM convert_metadata_to_dict)
      = Except.ok [[("t0", 8000)]] from by decide]
    show (match simLoop ⟨8000, [[⟨"t0", some 8000, none⟩]], none, 1, 1, 8, 1024, 1⟩
        [[("t0", 8000)]] 1000 2 ⟨0, 0, 0, [0]⟩ with
      | Except.error e => (Except.error e : Except AllocError (SimState × Bool))
      | Except.ok st => Except.ok (st,
          decide (st.checkpoints_made
            ≠ (⟨8000, [[⟨"t0", some 8000, none⟩]], none, 1, 1, 8, 1024, 1⟩ :
                SimArgs).epochs)))
      = Except.ok (⟨1000, 8192000, 1, [1]⟩, false)
    rw [simLoop_succ_step (by decide) hstep]
    decide
  exact ⟨hrun, claim_simulator_post.1 1000 _ 2 _ _ hrun⟩

/-- C7 counterexample: manifest loading performs no normalization — the
parsed records keep whichever count field was present — and the allocator
itself performs the `num_sequences`/`num_chunks` fallback lookup (source
lines 451-454), downstream of loading.  Witnessed by the claim's own
consequence failing: if counts were canonicalized at load time and no
fallback ran downstream, the `num_chunks` field would be dead after
loading, so erasing it could not change any allocation
(`no_downstream_fallback`); but on a manifest whose record carries only
`num_chunks`, the allocation succeeds by reading `num_chunks`, and erasing
that field turns the run into a key error. -/
theorem claim_normalized_load_counterexample :
    single_epoch_string 7 [0] [[⟨"s0", none, some 7⟩]] none 1 1
        = .ok ⟨[["s0"]], [[7]], [7], [1]⟩ ∧
      single_epoch_string 7 [0] [[⟨"s0", none, none⟩]] none 1 1
        = .error .keyError ∧
      ¬ no_downstream_fallback := by
  have h1 : single_epoch_string 7 [0] [[⟨"s0", none, some 7⟩]] none 1 1
      = .ok ⟨[["s0"]], [[7]], [7], [1]⟩ := by
    rw [single_epoch_string_one_source]
    decide
  have h2 : single_epoch_string 7 [0] [[⟨"s0", none, none⟩]] none 1 1
      = .error .keyError := by
    rw [single_epoch_string_one_source]
    decide
  refine ⟨h1, h2, fun h => ?_⟩
  have hinst := h 7 [0] [[⟨"s0", none, some 7⟩]] 1 1
  rw [show (([[⟨"s0", none, some 7⟩]] :
        List (List ManifestRecord)).map (List.map eraseChunks))
      = [[⟨"s0", none, none⟩]] from by decide] at hinst
  rw [h1, h2] at hinst
  exact absurd hinst (by decide)

/-- C7 amended: manifest loading hands records through unchanged, and each
downstream consumer resolves the count at use time by the fallback
`num_sequences`-then-`num_chunks` (`recordCount`); the allocator is
invariant under moving every record's count into the canonical
`num_sequences` field, because it reads a record only through its shard
name and `recordCount`. -/
theorem claim_normalized_load_amended :
    (∀ (N : Nat) (starting : List Nat) (m : List (List ManifestRecord)) (w v : Nat),
      single_epoch_string N starting (m.map (List.map normalizeRecord)) none w v
        = single_epoch_string N starting m none w v) ∧
    (∀ (s : String) (a : Nat) (b : Option Nat),
      recordCount ⟨s, some a, b⟩ = some a) ∧
    (∀ (s : String) (k : Nat), recordCount ⟨s, none, some k⟩ = some k) := by
  exact ⟨single_epoch_string_normalize, fun _ _ _ => rfl, fun _ _ => rfl⟩

/-- C8: a supplied weight vector whose length differs from the number of
sources makes the allocation fail with the configuration error (the line
433 `assert`), for every cursor state and every collection of well-formed
nonempty manifests — the last two conditions because the advisory
diagnostics of lines 421-428 run before the assert and raise `KeyError` on
a count-less record or `ValueError` on an empty manifest, preempting it;
the mismatch failure itself is produced by the weight-validation/quota
stage alone, before any shard is accumulated or any cursor advanced. -/
theorem claim_config_error :
    (∀ (N : Nat) (starting : List Nat) (manifests : List (List ManifestRecord))
        (wl : List ℚ) (w v : Nat),
      (∀ mf ∈ manifests, manifestWF mf) →
      (∀ mf ∈ manifests, mf ≠ []) →
      wl.length ≠ manifests.length →
      single_epoch_string N starting manifests (some wl) w v
        = .error .configError) ∧
    (∀ (N n : Nat) (wl : List ℚ), wl.length ≠ n →
      neededOf (some wl) n N = .error .configError) := by
  constructor
  · intro N starting manifests wl w v hwf hne h
    unfold single_epoch_string
    rw [preChecks_ok hwf hne, neededOf_mismatch h]
  · intro N n wl h
    exact neededOf_mismatch h

/-- C8 witness: a two-entry weight vector against one source. -/
theorem claim_config_error_witness :
    ([(1 : ℚ), 2].length ≠ ([[⟨"s", some 5, none⟩]] :
        List (List ManifestRecord)).length) ∧
    single_epoch_string 10 [0] [[⟨"s", some 5, none⟩]] (some [(1 : ℚ), 2]) 1 1
      = .error .configError := by
  refine ⟨by decide, ?_⟩
  exact claim_config_error.1 10 [0] [[⟨"s", some 5, none⟩]] [(1 : ℚ), 2] 1 1
    (by decide) (by decide) (by decide)

/-- C9: the allocator never mutates the caller's
`starting_shard_per_source`.  The deep copy at line 439 is modelled by the
state carrying the caller's list in the `starting` field and the working
cursors in the separate `next` field, initialized to an equal value; every
successful step — including steps of a round that later aborts with the
exhaustion error, whose partial state is discarded — leaves `starting`
exactly as passed in, and so does the whole loop; the committed cursors are
returned as a fresh list, not by writing through the argument. -/
theorem claim_no_cursor_mutation :
    (∀ (starting : List Nat) (n : Nat),
      (allocInit starting n).next = starting ∧
        (allocInit starting n).starting = starting) ∧
    (∀ (m : List (List ManifestRecord)) (i : Nat) (s s' : AllocState),
      allocStep m i s = .ok s' → s'.starting = s.starting) ∧
    (∀ (m : List (List ManifestRecord)) (n W : Nat) (needed : List Int)
        (fuel : Nat) (s s' : AllocState),
      allocLoop m n W needed fuel s = .ok s' → s'.starting = s.starting) ∧
    (∀ (N : Nat) (starting : List Nat) (manifests : List (List ManifestRecord))
        (weights : Option (List ℚ)) (w v : Nat) (res : AllocResult),
      single_epoch_string N starting manifests weights w v = .ok res →
      ∃ s : AllocState,
        res = allocFinalize (w * v) s ∧ s.starting = starting) := by
  refine ⟨fun _ _ => ⟨rfl, rfl⟩, fun _ _ _ _ h => allocStep_starting h,
    fun _ _ _ _ _ _ _ h => allocLoop_starting h, ?_⟩
  intro N starting manifests weights w v res hok
  obtain ⟨-, needed, s, -, hloop, -, rfl⟩ := single_epoch_string_ok_elim hok
  exact ⟨s, rfl, allocLoop_starting hloop⟩

/-- C9 witness: one concrete step and one concrete full call, with
`starting` intact. -/
theorem claim_no_cursor_mutation_witness :
    (allocStep [[⟨"s0", some 5, none⟩]] 0 (allocInit [0] 1)
        = .ok ⟨[0], [1], [["s0"]], [[5]]⟩) ∧
    (⟨[0], [1], [["s0"]], [[5]]⟩ : AllocState).starting
      = (allocInit [0] 1).starting := by
  have h : allocStep [[⟨"s0", some 5, none⟩]] 0 (allocInit [0] 1)
      = .ok ⟨[0], [1], [["s0"]], [[5]]⟩ := by decide
  exact ⟨h, claim_no_cursor_mutation.2.1 [[⟨"s0", some 5, none⟩]] 0 _ _ h⟩

/-- C10: the manifest reader splits the file text on newline characters and
discards the final segment, so a file whose content does not end with a
trailing newline loses its final record: parsing `joinNl lines ++ last`
(every line newline-free, `last` the final un-terminated record line)
yields exactly `lines`, with `last` absent from the output handed to every
downstream consumer, while the newline-terminated layout
`joinNl (lines ++ [last])` yields all of `lines ++ [last]`. -/
theorem claim_trailing_newline_drop :
    ∀ (lines : List (List Char)) (last : List Char),
      (∀ l ∈ lines, '\n' ∉ l) → '\n' ∉ last →
      metadataSegments (joinNl lines ++ last) = lines ∧
      metadataSegments (joinNl (lines ++ [last])) = lines ++ [last] := by
  intro lines last h1 h2
  constructor
  · unfold metadataSegments
    rw [splitNl_joinNl_noTrail h1 h2, List.dropLast_concat]
  · unfold metadataSegments
    rw [splitNl_joinNl (by
      intro l hl
      rcases List.mem_append.mp hl with h | h
      · exact h1 l h
      · rcases List.mem_singleton.mp h with rfl
        exact h2),
      List.dropLast_concat]

/-- C10 witness: the two-line file `"a\nb"` parses to just `["a"]` (the
record `b` is dropped), while `"a\nb\n"` parses to `["a", "b"]`. -/
theorem claim_trailing_newline_drop_witness :
    ((∀ l ∈ [['a']], '\n' ∉ l) ∧ '\n' ∉ ['b']) ∧
    metadataSegments (joinNl [['a']] ++ ['b']) = [['a']] ∧
    metadataSegments (joinNl ([['a']] ++ [['b']])) = [['a']] ++ [['b']] := by
  refine ⟨⟨by decide, by decide⟩, ?_⟩
  exact claim_trailing_newline_drop [['a']] ['b'] (by decide) (by decide)
